import Mathlib

/-!
The gogoo library: selection and tag helpers, confirmation and retry primitives.

A shallow embedding of the pure parts of the `gce` and `utility` packages.

* A Go `string` is modelled as the list of its characters.  Go compares strings
  byte by byte; on UTF-8 text that is the order of the code points, which is
  what `strLess` computes.
* A Go slice is modelled as a `List`; the pointers held by a slice of
  `*compute.Snapshot` are modelled by the snapshots they point to.
* A Go `(value, error)` result is a pair of options, `none` standing for `nil`.
-/

namespace Gogoo

/-- A Go string, as the list of its characters. -/
abbrev GoString := List Char

/-- The comparison `a < b` of two Go strings: the first position where they
differ decides, and a proper initial segment is smaller. -/
def strLess : GoString → GoString → Bool
  | _, [] => false
  | [], _ :: _ => true
  | a :: as, b :: bs =>
    if a < b then true
    else if b < a then false
    else strLess as bs

/-- Whether `s` begins with `sub` (the comparison `s[i:i+len(sub)] == sub` made at
one position of the search in `strings.Contains`). -/
def startsWith : GoString → GoString → Bool
  | _, [] => true
  | [], _ :: _ => false
  | c :: cs, d :: ds => if c = d then startsWith cs ds else false

/-- Go's `strings.Contains(s, substr)`: `substr` occurs at some position of `s`. -/
def Contains : GoString → GoString → Bool
  | [], substr => startsWith [] substr
  | c :: cs, substr => if startsWith (c :: cs) substr then true else Contains cs substr

/-- The fields of `compute.Snapshot` the helpers read: `Name`, and `Id` standing
for everything else that tells two snapshots apart. -/
structure Snapshot where
  Name : GoString
  Id : Nat
  deriving DecidableEq

/-- `BySnapshotName.Less`: `a[i].Name < a[j].Name`, on the two elements compared. -/
def BySnapshotName.Less (a b : Snapshot) : Bool :=
  strLess a.Name b.Name

/-- What `sort.Sort` guarantees of its result `out` on the slice `inp`: it is a
rearrangement of `inp` in which no element is `Less` than one before it.  The
library promises no more (the sort is not stable). -/
def IsSortOf (less : α → α → Bool) (out inp : List α) : Prop :=
  out.Perm inp ∧ out.Pairwise (fun x y => less y x = false)

/-- A function that meets the contract of `sort.Sort` on every slice of snapshots
ordered by `BySnapshotName`. -/
def SortsBySnapshotName (sortSort : List Snapshot → List Snapshot) : Prop :=
  ∀ l, IsSortOf BySnapshotName.Less (sortSort l) l

/-- One sort that meets the contract: insertion by `BySnapshotName.Less`. -/
def insertByName (x : Snapshot) : List Snapshot → List Snapshot
  | [] => [x]
  | y :: ys => if BySnapshotName.Less y x then y :: insertByName x ys else x :: y :: ys

/-- Insertion sort of a slice of snapshots by name. -/
def sortByName : List Snapshot → List Snapshot
  | [] => []
  | x :: xs => insertByName x (sortByName xs)

/-- The loop of `GetLatestSnapshot` that collects the snapshots whose name
contains `pfx`, one `append` per matching snapshot. -/
def filterSnapshots (pfx : GoString) (snapshots : List Snapshot) : List Snapshot :=
  snapshots.foldl
    (fun filteredSnapshots snapshot =>
      if Contains snapshot.Name pfx then filteredSnapshots ++ [snapshot]
      else filteredSnapshots)
    []

/-- `GceManager.GetLatestSnapshot`, with the library's `sort.Sort` as the
parameter `sortSort`.  The result is the pair `(snapshot, error)`. -/
def GetLatestSnapshot (sortSort : List Snapshot → List Snapshot)
    (pfx : GoString) (snapshots : List Snapshot) : Option Snapshot × Option String :=
  let filteredSnapshots := sortSort (filterSnapshots pfx snapshots)
  if filteredSnapshots.length < 1 then
    (none, some "No snapshot found")
  else
    (filteredSnapshots[filteredSnapshots.length - 1]?, none)

/-- `utility.InStringSlice`: the loop returns at the first element equal to `src`. -/
def InStringSlice : List GoString → GoString → Bool
  | [], _ => false
  | a :: rest, src => if a = src then true else InStringSlice rest src

/-- The closure `attacher` of `AttachTags`: one `append` per new tag. -/
def attacher (src new : List GoString) : List GoString :=
  new.foldl (fun src n => src ++ [n]) src

/-- The closure `detacher` of `DetachTags`: a tag of `src` found in `remove` is
skipped, every other one is appended to the result. -/
def detacher (src remove : List GoString) : List GoString :=
  src.foldl
    (fun result s => if InStringSlice remove s then result else result ++ [s])
    []


/-! ## Confirmation and retry -/

/-- A run of a flow primitive: the caller's state after the invocations made so
far, the number of invocations, and the total time slept. -/
structure Flow (σ : Type) where
  st : σ
  calls : Nat
  slept : Nat

/-- The state in which invocation number `j + 1` of `f` runs, when the first
one runs in `s`. -/
def stateBefore (f : σ → Bool × σ) (s : σ) : Nat → σ
  | 0 => s
  | j + 1 => stateBefore f (f s).2 j

/-- The result of invocation number `j + 1` of `f`, when the first one runs in `s`. -/
def nthCall (f : σ → Bool × σ) (s : σ) (j : Nat) : Bool :=
  (f (stateBefore f s j)).1

/-- Modelled from the spec: the body of `MultipleConfirm` (`utility/flow_utility.go`
is not among the sources).  With `k` invocations left: invoke the predicate; on
`false` stop and return `false`; after the last invocation return `true`;
otherwise sleep one interval and go on. -/
def confirmLoop (isTenable : σ → Bool × σ) (interval : Nat) : Nat → Flow σ → Bool × Flow σ
  | 0, w => (true, w)
  | k + 1, w =>
    let r := isTenable w.st
    if r.1 = false then (false, ⟨r.2, w.calls + 1, w.slept⟩)
    else if k = 0 then (true, ⟨r.2, w.calls + 1, w.slept⟩)
    else confirmLoop isTenable interval k ⟨r.2, w.calls + 1, w.slept + interval⟩

/-- Modelled from the spec: `MultipleConfirm(n, predicate, interval)` (its source
file `utility/flow_utility.go` is missing).  Invokes the predicate up to `n` times,
sleeping `interval` between invocations; `true` only if every one of the `n`
invocations returned `true`, `false` at the first `false`.  The predicate is a
step on the caller's state `s`. -/
def MultipleConfirm (n : Int) (isTenable : σ → Bool × σ) (interval : Nat) (s : σ) :
    Bool × Flow σ :=
  confirmLoop isTenable interval n.toNat ⟨s, 0, 0⟩

/-- Modelled from the spec: the body of `RunUntilSuccess` (`utility/flow_utility.go`
is not among the sources).  With `k` attempts left: invoke the operation; on
`true` stop and return `true`; after the last attempt return `false`; otherwise
sleep one interval and go on. -/
def retryLoop (f : σ → Bool × σ) (interval : Nat) : Nat → Flow σ → Bool × Flow σ
  | 0, w => (false, w)
  | k + 1, w =>
    let r := f w.st
    if r.1 = true then (true, ⟨r.2, w.calls + 1, w.slept⟩)
    else if k = 0 then (false, ⟨r.2, w.calls + 1, w.slept⟩)
    else retryLoop f interval k ⟨r.2, w.calls + 1, w.slept + interval⟩

/-- Modelled from the spec: `RunUntilSuccess(n, operation, interval)` (its source
file `utility/flow_utility.go` is missing).  Invokes the operation up to `n`
times, sleeping `interval` between attempts; `true` at the first success, `false`
if all `n` attempts fail.  The operation is a step on the caller's state `s`. -/
def RunUntilSuccess (n : Int) (f : σ → Bool × σ) (interval : Nat) (s : σ) :
    Bool × Flow σ :=
  retryLoop f interval n.toNat ⟨s, 0, 0⟩

/-! ## Inputs of the tests -/

/-- The slice of `Test10_GetLatestSnapshot`. -/
def testedSnapshots : List Snapshot :=
  [⟨"zebra-rtc-alpha-snapshot-201503032021".toList, 1⟩,
   ⟨"zebra-rtc-alpha-snapshot-201502161516".toList, 2⟩,
   ⟨"zebra-rtc-alpha-snapshot-201502131103".toList, 3⟩]

/-- The predicate of `TestMultipleConfirm`: `counter++; return true`. -/
def isTenableCounting (counter : Nat) : Bool × Nat :=
  (true, counter + 1)

/-- The operation of `TestRunUntilSuccess`: `counter++; return counter > m`. -/
def succeedsAfter (m : Nat) (counter : Nat) : Bool × Nat :=
  (decide (counter + 1 > m), counter + 1)

/-! ## Probes

The three probes of `gcemanager.go` are the same loop with different constants.
The loop runs over an explicit clock (nanoseconds, as `time.Duration`), the
sequence of accessor responses, and a trace of the actions taken; the sends on
the observer channel are the `send` events of the trace. -/

/-- Go's `time.Second`, in nanoseconds. -/
def Second : Nat := 1000000000

/-- The constant `VmRunningTimeout`. -/
def VmRunningTimeout : Nat := 180 * Second

/-- The constant `VmStoppingTimeout`. -/
def VmStoppingTimeout : Nat := 180 * Second

/-- The constant `DiskCreationTimeout`. -/
def DiskCreationTimeout : Nat := 180 * Second

/-- `gceError`: the message of the error it builds. -/
def gceError (errMessage : GoString) : GoString :=
  "GCE operation fails: ".toList ++ errMessage

/-- What `GetVm` / `GetDisk` returns: `(nil, err)`, or a resource, of which the
probes read the `Status`. -/
inductive Response where
  | err (msg : GoString)
  | ok (status : GoString)
  deriving DecidableEq

/-- The actions recorded in a trace or call log. -/
inductive Event where
  | insert
  | get (i : Nat)
  | sleep (d : Nat)
  | send (b : Bool)
  deriving DecidableEq

/-- The world a probe runs in: `resp i` is what accessor call number `i + 1`
returns, and `took i` is the time that passes in the cycle of that call besides
the sleep the probe asks for. -/
structure ProbeEnv where
  resp : Nat → Response
  took : Nat → Nat

/-- The state of a running probe: the clock, the number of accessor calls made,
and the actions taken so far. -/
structure ProbeState where
  clock : Nat
  calls : Nat
  trace : List Event
  deriving DecidableEq

/-- The constants in which the three probes differ: the timeout, the target
`Status`, the sleep after an accessor error and the sleep after a resource whose
status is not the target. -/
structure Probe where
  timeout : Nat
  target : GoString
  sleepOnErr : Nat
  sleepOnStatus : Nat

/-- The constants of `ProbeVmRunning`. -/
def ProbeVmRunning : Probe :=
  ⟨VmRunningTimeout, "RUNNING".toList, 10 * Second, 10 * Second⟩

/-- The constants of `ProbeVmStopped`. -/
def ProbeVmStopped : Probe :=
  ⟨VmStoppingTimeout, "TERMINATED".toList, 10 * Second, 10 * Second⟩

/-- The constants of `ProbeDiskCreation`. -/
def ProbeDiskCreation : Probe :=
  ⟨DiskCreationTimeout, "READY".toList, 10 * Second, 5 * Second⟩

/-- The `for` loop of a probe, one unit of fuel per cycle; `none` when the fuel
runs out before the loop breaks.  A cycle: if the time since `startTime` is over
the timeout, send `false` and break; otherwise call the accessor; on an error
sleep and continue; on a status other than the target sleep and continue;
otherwise send `true` and break. -/
def Probe.loop (p : Probe) (env : ProbeEnv) (startTime : Nat) :
    Nat → ProbeState → Option ProbeState
  | 0, _ => none
  | fuel + 1, st =>
    if st.clock - startTime > p.timeout then
      some ⟨st.clock, st.calls, st.trace ++ [Event.send false]⟩
    else
      match env.resp st.calls with
      | Response.err _ =>
        p.loop env startTime fuel
          ⟨st.clock + env.took st.calls + p.sleepOnErr, st.calls + 1,
            st.trace ++ [Event.get st.calls, Event.sleep p.sleepOnErr]⟩
      | Response.ok status =>
        if status ≠ p.target then
          p.loop env startTime fuel
            ⟨st.clock + env.took st.calls + p.sleepOnStatus, st.calls + 1,
              st.trace ++ [Event.get st.calls, Event.sleep p.sleepOnStatus]⟩
        else
          some ⟨st.clock + env.took st.calls, st.calls + 1,
            st.trace ++ [Event.get st.calls, Event.send true]⟩

/-- A probe started when the clock shows `now`: `startTime := time.Now()`, then
the loop. -/
def Probe.run (p : Probe) (env : ProbeEnv) (now fuel : Nat) : Option ProbeState :=
  p.loop env now fuel ⟨now, 0, []⟩

/-- The values sent on the observer channel, in order. -/
def sent : List Event → List Bool
  | [] => []
  | Event.send b :: rest => b :: sent rest
  | _ :: rest => sent rest

/-- The durations of the sleeps of a trace, in order. -/
def slept : List Event → List Nat
  | [] => []
  | Event.sleep d :: rest => d :: slept rest
  | _ :: rest => slept rest

/-- Whether a response is a resource in the target state of the probe. -/
def Probe.isTarget (p : Probe) : Response → Bool
  | Response.err _ => false
  | Response.ok status => decide (status = p.target)

/-- The sleep a probe makes after a response that is not its target. -/
def Probe.sleepAfter (p : Probe) : Response → Nat
  | Response.err _ => p.sleepOnErr
  | Response.ok _ => p.sleepOnStatus

/-- The trace of `j` polling cycles that do not end the probe, the first of them
making accessor call number `c + 1`. -/
def Probe.polls (p : Probe) (env : ProbeEnv) (c : Nat) : Nat → List Event
  | 0 => []
  | j + 1 =>
    Event.get c :: Event.sleep (p.sleepAfter (env.resp c)) :: p.polls env (c + 1) j

/-- The time `j` such polling cycles take. -/
def Probe.pollTime (p : Probe) (env : ProbeEnv) (c : Nat) : Nat → Nat
  | 0 => 0
  | j + 1 => env.took c + p.sleepAfter (env.resp c) + p.pollTime env (c + 1) j

/-! ## Create and transition operations -/

/-- `fmt.Sprintf("NewVM timeout: VM[]", vm.Name)`: the format has no verb, so
the argument is reported as an extra one. -/
def newVmTimeoutMessage (vmName : GoString) : GoString :=
  "NewVM timeout: VM[]%!(EXTRA string=".toList ++ vmName ++ ")".toList

/-- `GceManager.NewVm`, over the result `insertErr` of the insert request and the
world `env` of the probe.  The probe goroutine is run to its send, which is what
the receive `<-vmRunningObserver` waits for.  The result is the returned error
and the log of the calls made; `none` when the probe does not finish in `fuel`
cycles or sends nothing. -/
def NewVm (insertErr : Option GoString) (env : ProbeEnv) (now fuel : Nat)
    (vmName : GoString) : Option (Option GoString × List Event) :=
  match insertErr with
  | some err => some (some (gceError err), [Event.insert])
  | none =>
    match ProbeVmRunning.run env now fuel with
    | none => none
    | some st =>
      match sent st.trace with
      | [] => none
      | done :: _ =>
        if !done then
          some (some (gceError (newVmTimeoutMessage vmName)), Event.insert :: st.trace)
        else
          some (none, Event.insert :: st.trace)

/-- `GceManager.NewDisk`, over the result `insertErr` of the insert request and
the world `env` of the probe, in the same way as `NewVm`. -/
def NewDisk (insertErr : Option GoString) (env : ProbeEnv) (now fuel : Nat)
    (name : GoString) : Option (Option GoString × List Event) :=
  match insertErr with
  | some err => some (some (gceError err), [Event.insert])
  | none =>
    match ProbeDiskCreation.run env now fuel with
    | none => none
    | some st =>
      match sent st.trace with
      | [] => none
      | done :: _ =>
        if !done then
          some (some ("NewDisk timeout: disk[".toList ++ name ++ "]".toList),
            Event.insert :: st.trace)
        else
          some (none, Event.insert :: st.trace)

/-- The part of `compute.Operation` that identifies an operation. -/
structure Operation where
  Name : GoString
  deriving DecidableEq

/-- The type `VmConditionChecker`.  A checker is the caller's code: it is modelled
as a step on the caller's state `σ`, so that its invocations can be observed. -/
abbrev VmConditionChecker (σ : Type) :=
  GoString → GoString → GoString → σ → (Bool × Option GoString) × σ

/-- `GceManager.StopVm`, over the result `request` of the stop request and the
caller's state `s`.  The result is the returned pair `(operation, error)` and the
caller's state afterwards. -/
def StopVm (request : Except GoString Operation) (projectId zone vmName : GoString)
    (vcc : VmConditionChecker σ) (s : σ) : (Option Operation × Option GoString) × σ :=
  match request with
  | Except.error err => ((none, some (gceError err)), s)
  | Except.ok op =>
    let r := vcc projectId zone vmName s
    if r.1.1 then ((some op, none), r.2) else ((none, r.1.2), r.2)

/-- `GceManager.StartVm`, over the result `request` of the start request and the
caller's state `s`, in the same way as `StopVm`. -/
def StartVm (request : Except GoString Operation) (projectId zone vmName : GoString)
    (vcc : VmConditionChecker σ) (s : σ) : (Option Operation × Option GoString) × σ :=
  match request with
  | Except.error err => ((none, some (gceError err)), s)
  | Except.ok op =>
    let r := vcc projectId zone vmName s
    if r.1.1 then ((some op, none), r.2) else ((none, r.1.2), r.2)

/-- A checker that answers `(pass, err)` and records the coordinates it is called
with. -/
def recordingChecker (pass : Bool) (err : Option GoString) :
    VmConditionChecker (List (GoString × GoString × GoString)) :=
  fun projectId zone instanceName calls =>
    ((pass, err), calls ++ [(projectId, zone, instanceName)])

/-! ## Worlds used as examples -/

/-- The accessor reports "not found" twice and then a resource with the given
status; calls take no time. -/
def notFoundTwice (status : GoString) : ProbeEnv :=
  ⟨fun i => if i < 2 then Response.err "not found".toList else Response.ok status,
    fun _ => 0⟩

/-- The accessor reports a resource in the state `PENDING` on every call; calls
take no time. -/
def neverReady : ProbeEnv :=
  ⟨fun _ => Response.ok "PENDING".toList, fun _ => 0⟩

/-- The accessor returns an error on every call; calls take no time. -/
def alwaysError : ProbeEnv :=
  ⟨fun _ => Response.err "permission denied".toList, fun _ => 0⟩

/-- The accessor returns `first` on its first call and a resource with the given
status from then on; calls take no time. -/
def firstThen (first : Response) (status : GoString) : ProbeEnv :=
  ⟨fun i => if i = 0 then first else Response.ok status, fun _ => 0⟩

/-! ## String splitting -/

/-- Go's `strings.Index(s, substr)`: the position of the first occurrence of
`substr` in `s`, `none` standing for `-1`. -/
def Index : GoString → GoString → Option Nat
  | [], substr => if substr = [] then some 0 else none
  | c :: cs, substr =>
    if startsWith (c :: cs) substr then some 0
    else (Index cs substr).map (fun i => i + 1)

/-- The loop of Go's `genSplit`: cut `s` at the first occurrence of `sep`, keep the
part before it and go on after it, at most `n` times.  Go bounds the loop by
`Count(s, sep)`, the number of occurrences the loop finds. -/
def genSplit (sep : GoString) : Nat → GoString → List GoString
  | 0, s => [s]
  | n + 1, s =>
    match Index s sep with
    | none => [s]
    | some m => s.take m :: genSplit sep n (s.drop (m + sep.length))

/-- Go's `explode`: one string per character. -/
def explode (s : GoString) : List GoString :=
  s.map (fun c => [c])

/-- Go's `strings.Split(s, sep)`.  The length of `s` bounds the number of
occurrences of a non-empty `sep`. -/
def Split (s sep : GoString) : List GoString :=
  if sep = [] then explode s else genSplit sep s.length s

/-- Go's `strings.Join(elems, sep)`. -/
def Join : List GoString → GoString → GoString
  | [], _ => []
  | [a], _ => a
  | a :: b :: rest, sep => a ++ sep ++ Join (b :: rest) sep

/-- `utility.GetLastSplit`: `split[len(split)-1]`; `none` when the index is out of
range, where Go panics. -/
def GetLastSplit (src separator : GoString) : Option GoString :=
  let split := Split src separator
  split[split.length - 1]?

/-- The field of `compute.Disk` that `GetSnapshotOfDisk` reads, and its name. -/
structure Disk where
  Name : GoString
  SourceSnapshot : GoString
  deriving DecidableEq

/-- `GceManager.GetSnapshotOfDisk`: `arr[len(arr)-1]` of the split by "/". -/
def GetSnapshotOfDisk (disk : Disk) : Option GoString :=
  let arr := Split disk.SourceSnapshot "/".toList
  arr[arr.length - 1]?

/-- `GceManager.PatchInstanceMachineType`: the last element of the split by "/"
is overwritten and the elements are joined again; `none` when the index is out
of range, where Go panics. -/
def PatchInstanceMachineType (machineType targetType : GoString) : Option GoString :=
  let split := Split machineType "/".toList
  if split.length - 1 < split.length then
    some (Join (split.set (split.length - 1) targetType) "/".toList)
  else
    none

/-- What the claim on `GetLastSplit` calls the suffix of `src` that follows the
last occurrence of `sep`: `suf` follows an occurrence of `sep`, and no occurrence
is followed by a shorter suffix. -/
def IsAfterLastOccurrence (src sep suf : GoString) : Prop :=
  (∃ pre, src = pre ++ sep ++ suf) ∧
    ∀ pre' suf', src = pre' ++ sep ++ suf' → suf.length ≤ suf'.length

/-- The suffix of `s` after the last of the cuts that a split by `sep` makes, the
occurrences being found from left to right without overlap: when `sep` does not
occur in `s` it is `s` itself; otherwise the split cuts at the first occurrence
of `sep` (no occurrence starts further left) and goes on in the part after it. -/
inductive AfterLastCut (sep : GoString) : GoString → GoString → Prop where
  | absent (s : GoString) : ¬ sep <:+: s → AfterLastCut sep s s
  | cut (s pre rest r : GoString) : s = pre ++ sep ++ rest →
      (∀ pre' suf', s = pre' ++ sep ++ suf' → pre.length ≤ pre'.length) →
      AfterLastCut sep rest r → AfterLastCut sep s r

/-! ## Qualified items -/

/-- `utility.GetQualifiedItems`, for items whose method `IsQualified(params...)`
is the function `isQualified`: the loop counts and collects the qualified items. -/
def GetQualifiedItems (isQualified : α → π → Bool) (src : List α) (params : π) :
    Nat × List α :=
  src.foldl
    (fun acc item =>
      if isQualified item params then (acc.1 + 1, acc.2 ++ [item]) else acc)
    (0, [])

/-! ## Tag adjustment -/

/-- The part of `compute.Tags`: the tags and the fingerprint sent back with them. -/
structure Tags where
  Items : List GoString
  Fingerprint : GoString
  deriving DecidableEq

/-- The requests `adjustTags` makes to the resource manager. -/
inductive TagCall where
  | getVm (projectId zone vmName : GoString)
  | setTags (projectId zone vmName : GoString) (tags : Tags)
  deriving DecidableEq

/-- The resource manager as `adjustTags` uses it, its requests being steps on the
state `σ` of the manager: `get` is the `Instances.Get` request, which answers with
the message of an error or with the VM, of which `adjustTags` reads the pointer
`vm.Tags` (`none` when that pointer is nil); `setTags` is the `SetTags` request. -/
structure TagManager (σ : Type) where
  get : GoString → GoString → GoString → σ → Except GoString (Option Tags) × σ
  setTags : GoString → GoString → GoString → Tags → σ → Except GoString Operation × σ

/-- `GceManager.adjustTags`.  `GetVm` wraps the error of the Get in `gceError`;
`vm.Tags.Items` panics when `vm.Tags` is nil (`none`, nothing is returned).  The
result is the returned pair `(operation, error)` and the state of the manager
afterwards. -/
def adjustTags (manager : TagManager σ) (projectId zone vmName : GoString)
    (tags : List GoString)
    (newTagsGenerator : List GoString → List GoString → List GoString) (s : σ) :
    Option (Option Operation × Option GoString) × σ :=
  match manager.get projectId zone vmName s with
  | (Except.error err, s₁) => (some (none, some (gceError err)), s₁)
  | (Except.ok none, s₁) => (none, s₁)
  | (Except.ok (some vmTags), s₁) =>
    match manager.setTags projectId zone vmName
        ⟨newTagsGenerator vmTags.Items tags, vmTags.Fingerprint⟩ s₁ with
    | (Except.error err, s₂) => (some (none, some (gceError err)), s₂)
    | (Except.ok op, s₂) => (some (some op, none), s₂)

/-- `GceManager.AttachTags`: `adjustTags` with the `attacher`. -/
def AttachTags (manager : TagManager σ) (projectId zone vmName : GoString)
    (addedTags : List GoString) (s : σ) :
    Option (Option Operation × Option GoString) × σ :=
  adjustTags manager projectId zone vmName addedTags attacher s

/-- `GceManager.DetachTags`: `adjustTags` with the `detacher`. -/
def DetachTags (manager : TagManager σ) (projectId zone vmName : GoString)
    (removedTages : List GoString) (s : σ) :
    Option (Option Operation × Option GoString) × σ :=
  adjustTags manager projectId zone vmName removedTages detacher s

/-- A manager that answers `fetched` to the Get and `submit tags` to a SetTags, and
whose state is the log of the requests it received. -/
def recordingManager (fetched : Except GoString (Option Tags))
    (submit : Tags → Except GoString Operation) : TagManager (List TagCall) :=
  ⟨fun projectId zone vmName log => (fetched, log ++ [TagCall.getVm projectId zone vmName]),
    fun projectId zone vmName tags log =>
      (submit tags, log ++ [TagCall.setTags projectId zone vmName tags])⟩

/-! ## Datastore -/

/-- A `datastore.Key`: its kind and name. -/
structure Key where
  Kind : GoString
  Name : GoString
  deriving DecidableEq

/-- The requests `PutUnique` makes to the datastore. -/
inductive DsCall (ε : Type) where
  | newTransaction
  | get (key : Key)
  | put (key : Key) (entity : ε)
  | commit

/-- The datastore as a key-value store, with what can go wrong in one call of
`PutUnique`: `txFails` (no transaction is returned), `getFails` (the Get fails
though the entity exists), `putErr` and `commitErr` (the errors of Put and
Commit, if any). -/
structure Datastore (ε : Type) where
  entities : Key → Option ε
  txFails : Bool
  getFails : Bool
  putErr : Option GoString
  commitErr : Option GoString

/-- The store after a committed Put of `entity` under `key`. -/
def Datastore.committed (ds : Datastore ε) (key : Key) (entity : ε) : Datastore ε :=
  ⟨fun k => if k = key then some entity else ds.entities k,
    ds.txFails, ds.getFails, ds.putErr, ds.commitErr⟩

/-- The outcome of `PutUnique`: the returned error, the entity behind the
caller's pointer afterwards, the store afterwards, and the requests made. -/
structure PutResult (ε : Type) where
  err : Option GoString
  entity : ε
  store : Datastore ε
  log : List (DsCall ε)

/-- `GdsManager.PutUnique`.  `GetTx` drops the error of `NewTransaction`; with no
transaction the `tx.Get` panics (`none`).  A Get that succeeds loads the stored
entity into the caller's one and ends the call with the violation error; the Put
of a transaction reaches the store only when the Commit succeeds. -/
def PutUnique (ds : Datastore ε) (key : Key) (entity : ε) : Option (PutResult ε) :=
  if ds.txFails then none
  else
    match (if ds.getFails then none else ds.entities key) with
    | some stored =>
      some ⟨some "Unique condition violation".toList, stored, ds,
        [DsCall.newTransaction, DsCall.get key]⟩
    | none =>
      match ds.putErr with
      | some err =>
        some ⟨some err, entity, ds,
          [DsCall.newTransaction, DsCall.get key, DsCall.put key entity]⟩
      | none =>
        match ds.commitErr with
        | some err =>
          some ⟨some err, entity, ds,
            [DsCall.newTransaction, DsCall.get key, DsCall.put key entity, DsCall.commit]⟩
        | none =>
          some ⟨none, entity, ds.committed key entity,
            [DsCall.newTransaction, DsCall.get key, DsCall.put key entity, DsCall.commit]⟩

/-- The URL of `TestGetLastSplit`. -/
def testedMachineTypeUrl : GoString :=
  ("https://www.googleapis.com/compute/v1/projects/ikalacomputeenginetest/" ++
    "zones/asia-east1-c/machineTypes/n1-highcpu-4").toList

/-- The key of `Test021_PutUnique`. -/
def instance1Key : Key :=
  ⟨"Article".toList, "instance-1".toList⟩

/-- A datastore that holds one entity, a title, under `instance1Key`, and in
which nothing goes wrong. -/
def testedDatastore : Datastore GoString :=
  ⟨fun k => if k = instance1Key then some "instance-1-title".toList else none,
    false, false, none, none⟩

/-! ## Strings -/

theorem strLess_iff_lt (a b : GoString) : strLess a b = true ↔ a < b := by
  induction a generalizing b with
  | nil =>
    cases b with
    | nil => simp [strLess]
    | cons d ds => simpa [strLess] using List.nil_lt_cons d ds
  | cons c cs ih =>
    cases b with
    | nil =>
      simp only [strLess, Bool.false_eq_true, false_iff]
      exact List.Lex.not_nil_right _ _
    | cons d ds =>
      unfold strLess
      by_cases hcd : c < d
      · simp only [hcd, if_true, true_iff]
        exact List.Lex.rel hcd
      · by_cases hdc : d < c
        · simp only [hcd, hdc, if_true, if_false, Bool.false_eq_true, false_iff]
          intro h
          cases h with
          | cons h => exact lt_irrefl _ hdc
          | rel h => exact hcd h
        · have hEq : c = d := le_antisymm (not_lt.mp hdc) (not_lt.mp hcd)
          subst hEq
          simp only [hcd, if_false, ih]
          exact (List.Lex.cons_iff).symm

theorem strLess_eq_false_iff (a b : GoString) : strLess a b = false ↔ b ≤ a := by
  rw [← not_lt, ← strLess_iff_lt]
  simp

theorem startsWith_iff (s sub : GoString) : startsWith s sub = true ↔ sub <+: s := by
  induction s generalizing sub with
  | nil =>
    cases sub with
    | nil => simp [startsWith]
    | cons d ds => simp [startsWith]
  | cons c cs ih =>
    cases sub with
    | nil => simp [startsWith]
    | cons d ds =>
      unfold startsWith
      by_cases h : c = d
      · subst h
        simp [ih, List.prefix_cons_inj]
      · have h2 : ¬ d = c := fun e => h e.symm
        simp [h, h2, List.cons_prefix_cons]

theorem Contains_iff (s substr : GoString) : Contains s substr = true ↔ substr <:+: s := by
  induction s with
  | nil =>
    unfold Contains
    rw [startsWith_iff]
    simp [List.prefix_nil, List.infix_nil]
  | cons c cs ih =>
    unfold Contains
    by_cases h : startsWith (c :: cs) substr = true
    · simp only [h, if_true, true_iff]
      exact ((startsWith_iff _ _).mp h).isInfix
    · rw [if_neg h, ih, List.infix_cons_iff, ← startsWith_iff]
      simp [h]

/-! ## Snapshot selection -/

theorem foldl_append_if (p : α → Bool) (acc l : List α) :
    l.foldl (fun r x => if p x then r ++ [x] else r) acc = acc ++ l.filter p := by
  induction l generalizing acc with
  | nil => simp
  | cons x xs ih =>
    rw [List.foldl_cons, ih]
    by_cases h : p x = true
    · simp [h, List.filter_cons]
    · simp [h, List.filter_cons]

theorem filterSnapshots_eq_filter (pfx : GoString) (snapshots : List Snapshot) :
    filterSnapshots pfx snapshots = snapshots.filter (fun s => Contains s.Name pfx) := by
  unfold filterSnapshots
  rw [foldl_append_if (fun s : Snapshot => Contains s.Name pfx)]
  simp

theorem mem_filterSnapshots (pfx : GoString) (snapshots : List Snapshot) (s : Snapshot) :
    s ∈ filterSnapshots pfx snapshots ↔ s ∈ snapshots ∧ pfx <:+: s.Name := by
  rw [filterSnapshots_eq_filter, List.mem_filter, Contains_iff]

theorem less_eq_false_iff (a b : Snapshot) :
    BySnapshotName.Less a b = false ↔ b.Name ≤ a.Name :=
  strLess_eq_false_iff a.Name b.Name

theorem less_eq_true_iff (a b : Snapshot) :
    BySnapshotName.Less a b = true ↔ a.Name < b.Name :=
  strLess_iff_lt a.Name b.Name

theorem perm_insertByName (x : Snapshot) (l : List Snapshot) :
    (insertByName x l).Perm (x :: l) := by
  induction l with
  | nil => exact List.Perm.refl _
  | cons y ys ih =>
    unfold insertByName
    by_cases h : BySnapshotName.Less y x = true
    · rw [if_pos h]
      exact (List.Perm.cons y ih).trans (List.Perm.swap x y ys)
    · rw [if_neg h]

theorem perm_sortByName (l : List Snapshot) : (sortByName l).Perm l := by
  induction l with
  | nil => exact List.Perm.refl _
  | cons x xs ih =>
    unfold sortByName
    exact (perm_insertByName x _).trans (List.Perm.cons x ih)

theorem pairwise_insertByName (x : Snapshot) (l : List Snapshot)
    (hl : l.Pairwise (fun a b => BySnapshotName.Less b a = false)) :
    (insertByName x l).Pairwise (fun a b => BySnapshotName.Less b a = false) := by
  induction l with
  | nil => simp [insertByName]
  | cons y ys ih =>
    rw [List.pairwise_cons] at hl
    unfold insertByName
    by_cases h : BySnapshotName.Less y x = true
    · rw [if_pos h, List.pairwise_cons]
      refine ⟨?_, ih hl.2⟩
      intro w hw
      rcases List.mem_cons.mp ((perm_insertByName x ys).mem_iff.mp hw) with hwx | hwy
      · subst hwx
        rw [less_eq_false_iff]
        exact le_of_lt ((less_eq_true_iff _ _).mp h)
      · exact hl.1 w hwy
    · rw [if_neg h, List.pairwise_cons]
      have hyx : x.Name ≤ y.Name := (less_eq_false_iff y x).mp (by simpa using h)
      refine ⟨?_, List.pairwise_cons.mpr hl⟩
      intro w hw
      rw [less_eq_false_iff]
      rcases List.mem_cons.mp hw with hwy | hwys
      · subst hwy
        exact hyx
      · exact le_trans hyx ((less_eq_false_iff _ _).mp (hl.1 w hwys))

/-- Insertion sort by name meets the contract of `sort.Sort`. -/
theorem sortByName_sorts : SortsBySnapshotName sortByName := by
  intro l
  refine ⟨perm_sortByName l, ?_⟩
  induction l with
  | nil => simp [sortByName]
  | cons x xs ih =>
    unfold sortByName
    exact pairwise_insertByName x _ ih

/-- The element at the last index of a slice sorted by `Less` is not `Less` than
any element of the slice. -/
theorem last_not_less (l : List Snapshot)
    (hl : l.Pairwise (fun a b => BySnapshotName.Less b a = false))
    (r : Snapshot) (hr : l[l.length - 1]? = some r) :
    r ∈ l ∧ ∀ s ∈ l, BySnapshotName.Less r s = false := by
  rw [← List.getLast?_eq_getElem?] at hr
  obtain ⟨init, rfl⟩ : ∃ init, l = init ++ [r] := by
    rcases List.eq_nil_or_concat l with h | ⟨init, b, h⟩
    · subst h
      simp at hr
    · subst h
      simp at hr
      subst hr
      exact ⟨init, by simp⟩
  refine ⟨by simp, ?_⟩
  intro s hs
  rw [List.pairwise_append] at hl
  rcases List.mem_append.mp hs with h | h
  · exact hl.2.2 s h r (by simp)
  · have : s = r := by simpa using h
    subst this
    rw [less_eq_false_iff]

/-! ## Tags -/

theorem InStringSlice_iff (slice : List GoString) (src : GoString) :
    InStringSlice slice src = true ↔ src ∈ slice := by
  induction slice with
  | nil => simp [InStringSlice]
  | cons a rest ih =>
    unfold InStringSlice
    by_cases h : a = src
    · simp [h]
    · have h2 : ¬ src = a := fun e => h e.symm
      simp [h, h2, ih]

theorem attacher_eq_append (src new : List GoString) : attacher src new = src ++ new := by
  unfold attacher
  induction new generalizing src with
  | nil => simp
  | cons n ns ih => rw [List.foldl_cons, ih]; simp

theorem detacher_eq_filter (src remove : List GoString) :
    detacher src remove = src.filter (fun s => !InStringSlice remove s) := by
  unfold detacher
  have h := foldl_append_if (fun s => !InStringSlice remove s) [] src
  simp only [List.nil_append] at h
  rw [← h]
  congr 1
  funext result s
  cases InStringSlice remove s <;> simp

/-! ## Confirmation and retry loops -/

theorem confirmLoop_all_true (p : σ → Bool × σ) (interval k : Nat) (w : Flow σ)
    (h : ∀ j < k, nthCall p w.st j = true) :
    (confirmLoop p interval k w).1 = true ∧
      (confirmLoop p interval k w).2.calls = w.calls + k := by
  induction k generalizing w with
  | zero => simp [confirmLoop]
  | succ k ih =>
    have h0 : (p w.st).1 = true := h 0 (Nat.succ_pos k)
    unfold confirmLoop
    simp only [h0, Bool.true_eq_false, if_false]
    by_cases hk : k = 0
    · subst hk
      simp
    · rw [if_neg hk]
      have hstep := ih ⟨(p w.st).2, w.calls + 1, w.slept + interval⟩
        (fun j hj => h (j + 1) (Nat.succ_lt_succ hj))
      refine ⟨hstep.1, ?_⟩
      rw [hstep.2]
      simp only []
      omega

theorem confirmLoop_first_false (p : σ → Bool × σ) (interval k m : Nat) (w : Flow σ)
    (hm : m < k) (htrue : ∀ j < m, nthCall p w.st j = true)
    (hfalse : nthCall p w.st m = false) :
    (confirmLoop p interval k w).1 = false ∧
      (confirmLoop p interval k w).2.calls = w.calls + m + 1 := by
  induction k generalizing w m with
  | zero => omega
  | succ k ih =>
    unfold confirmLoop
    cases m with
    | zero =>
      have h0 : (p w.st).1 = false := hfalse
      simp [h0]
    | succ m =>
      have h0 : (p w.st).1 = true := htrue 0 (Nat.succ_pos m)
      have hk : k ≠ 0 := by omega
      simp only [h0, Bool.true_eq_false, if_false, if_neg hk]
      have hstep := ih m ⟨(p w.st).2, w.calls + 1, w.slept + interval⟩ (by omega)
        (fun j hj => htrue (j + 1) (Nat.succ_lt_succ hj)) hfalse
      refine ⟨hstep.1, ?_⟩
      rw [hstep.2]
      simp only []
      omega

theorem retryLoop_all_false (f : σ → Bool × σ) (interval k : Nat) (w : Flow σ)
    (h : ∀ j < k, nthCall f w.st j = false) :
    (retryLoop f interval k w).1 = false ∧
      (retryLoop f interval k w).2.calls = w.calls + k := by
  induction k generalizing w with
  | zero => simp [retryLoop]
  | succ k ih =>
    have h0 : (f w.st).1 = false := h 0 (Nat.succ_pos k)
    unfold retryLoop
    simp only [h0, Bool.false_eq_true, if_false]
    by_cases hk : k = 0
    · subst hk
      simp
    · rw [if_neg hk]
      have hstep := ih ⟨(f w.st).2, w.calls + 1, w.slept + interval⟩
        (fun j hj => h (j + 1) (Nat.succ_lt_succ hj))
      refine ⟨hstep.1, ?_⟩
      rw [hstep.2]
      simp only []
      omega

theorem retryLoop_first_true (f : σ → Bool × σ) (interval k m : Nat) (w : Flow σ)
    (hm : m < k) (hfalse : ∀ j < m, nthCall f w.st j = false)
    (htrue : nthCall f w.st m = true) :
    (retryLoop f interval k w).1 = true ∧
      (retryLoop f interval k w).2.calls = w.calls + m + 1 := by
  induction k generalizing w m with
  | zero => omega
  | succ k ih =>
    unfold retryLoop
    cases m with
    | zero =>
      have h0 : (f w.st).1 = true := htrue
      simp [h0]
    | succ m =>
      have h0 : (f w.st).1 = false := hfalse 0 (Nat.succ_pos m)
      have hk : k ≠ 0 := by omega
      simp only [h0, Bool.false_eq_true, if_false, if_neg hk]
      have hstep := ih m ⟨(f w.st).2, w.calls + 1, w.slept + interval⟩ (by omega)
        (fun j hj => hfalse (j + 1) (Nat.succ_lt_succ hj)) htrue
      refine ⟨hstep.1, ?_⟩
      rw [hstep.2]
      simp only []
      omega

/-! ## Helpers for the claims -/

theorem GetLatestSnapshot_of_match (sortSort : List Snapshot → List Snapshot)
    (hsort : SortsBySnapshotName sortSort) (pfx : GoString) (snapshots : List Snapshot)
    (hex : ∃ s ∈ snapshots, pfx <:+: s.Name) :
    ∃ r, GetLatestSnapshot sortSort pfx snapshots = (some r, none) ∧ r ∈ snapshots ∧
      pfx <:+: r.Name ∧ ∀ s ∈ snapshots, pfx <:+: s.Name → s.Name ≤ r.Name := by
  obtain ⟨s0, hs0, hp0⟩ := hex
  obtain ⟨hperm, hpw⟩ := hsort (filterSnapshots pfx snapshots)
  have hmem : ∀ s, s ∈ sortSort (filterSnapshots pfx snapshots) ↔
      s ∈ snapshots ∧ pfx <:+: s.Name := fun s => by
    rw [hperm.mem_iff, mem_filterSnapshots]
  have hpos : 0 < (sortSort (filterSnapshots pfx snapshots)).length :=
    List.length_pos_of_mem ((hmem s0).2 ⟨hs0, hp0⟩)
  have hlt : (sortSort (filterSnapshots pfx snapshots)).length - 1 <
      (sortSort (filterSnapshots pfx snapshots)).length := by omega
  have hget := List.getElem?_eq_getElem hlt
  obtain ⟨hr, hmax⟩ := last_not_less _ hpw _ hget
  refine ⟨_, ?_, ((hmem _).1 hr).1, ((hmem _).1 hr).2, ?_⟩
  · unfold GetLatestSnapshot
    simp only []
    rw [if_neg (by omega), hget]
  · intro s hs hp
    exact (less_eq_false_iff _ _).mp (hmax s ((hmem s).2 ⟨hs, hp⟩))

theorem GetLatestSnapshot_of_no_match (sortSort : List Snapshot → List Snapshot)
    (hsort : SortsBySnapshotName sortSort) (pfx : GoString) (snapshots : List Snapshot)
    (hno : ∀ s ∈ snapshots, ¬ pfx <:+: s.Name) :
    GetLatestSnapshot sortSort pfx snapshots = (none, some "No snapshot found") := by
  have hnil : filterSnapshots pfx snapshots = [] := by
    rw [List.eq_nil_iff_forall_not_mem]
    intro s hs
    exact hno s ((mem_filterSnapshots _ _ _).1 hs).1 ((mem_filterSnapshots _ _ _).1 hs).2
  have hsorted : sortSort (filterSnapshots pfx snapshots) = [] := by
    have hperm := (hsort (filterSnapshots pfx snapshots)).1
    rw [hnil] at hperm
    rw [hnil]
    exact List.Perm.eq_nil hperm
  unfold GetLatestSnapshot
  simp [hsorted]

theorem nthCall_isTenableCounting (s j : Nat) : nthCall isTenableCounting s j = true := by
  induction j generalizing s with
  | zero => rfl
  | succ j ih => exact ih (s + 1)

/-! ## The claims -/

/-- C1: when some snapshot name contains the given string, `GetLatestSnapshot`
returns, with a nil error, a snapshot of the input whose name contains the string
and is lexicographically greater than or equal to every input name containing it. -/
theorem GetLatestSnapshot_returns_latest (sortSort : List Snapshot → List Snapshot)
    (hsort : SortsBySnapshotName sortSort) (pfx : GoString) (snapshots : List Snapshot)
    (hex : ∃ s ∈ snapshots, pfx <:+: s.Name) :
    ∃ r, GetLatestSnapshot sortSort pfx snapshots = (some r, none) ∧ r ∈ snapshots ∧
      pfx <:+: r.Name ∧ ∀ s ∈ snapshots, pfx <:+: s.Name → s.Name ≤ r.Name :=
  GetLatestSnapshot_of_match sortSort hsort pfx snapshots hex

/-- The test of C1: on the three snapshots of `Test10_GetLatestSnapshot` and the
string "alpha" the hypotheses hold, and the snapshot returned is the one named
`zebra-rtc-alpha-snapshot-201503032021`. -/
theorem GetLatestSnapshot_returns_latest_witness :
    SortsBySnapshotName sortByName ∧
    (∃ s ∈ testedSnapshots, "alpha".toList <:+: s.Name) ∧
    (∃ r, GetLatestSnapshot sortByName "alpha".toList testedSnapshots = (some r, none) ∧
      r ∈ testedSnapshots ∧ "alpha".toList <:+: r.Name ∧
      ∀ s ∈ testedSnapshots, "alpha".toList <:+: s.Name → s.Name ≤ r.Name) ∧
    GetLatestSnapshot sortByName "alpha".toList testedSnapshots =
      (some ⟨"zebra-rtc-alpha-snapshot-201503032021".toList, 1⟩, none) :=
  ⟨sortByName_sorts, by decide,
    GetLatestSnapshot_returns_latest sortByName sortByName_sorts "alpha".toList
      testedSnapshots (by decide),
    by decide⟩

/-- C2: `GetLatestSnapshot` returns a non-nil error with a nil snapshot exactly
when no input name contains the given string; the error is then "No snapshot
found", and the empty slice fails for every string. -/
theorem GetLatestSnapshot_fails_iff (sortSort : List Snapshot → List Snapshot)
    (hsort : SortsBySnapshotName sortSort) (pfx : GoString) (snapshots : List Snapshot) :
    (((GetLatestSnapshot sortSort pfx snapshots).2 ≠ none ∧
        (GetLatestSnapshot sortSort pfx snapshots).1 = none) ↔
      ∀ s ∈ snapshots, ¬ pfx <:+: s.Name) ∧
    ((GetLatestSnapshot sortSort pfx snapshots).2 ≠ none →
      GetLatestSnapshot sortSort pfx snapshots = (none, some "No snapshot found")) ∧
    GetLatestSnapshot sortSort pfx [] = (none, some "No snapshot found") := by
  have key : (GetLatestSnapshot sortSort pfx snapshots).2 ≠ none →
      ∀ s ∈ snapshots, ¬ pfx <:+: s.Name := by
    intro herr s hs hp
    obtain ⟨r, hr, _⟩ := GetLatestSnapshot_of_match sortSort hsort pfx snapshots ⟨s, hs, hp⟩
    rw [hr] at herr
    exact herr rfl
  refine ⟨⟨fun h => key h.1, fun hno => ?_⟩, fun herr => ?_, ?_⟩
  · rw [GetLatestSnapshot_of_no_match sortSort hsort pfx snapshots hno]
    exact ⟨by simp, rfl⟩
  · exact GetLatestSnapshot_of_no_match sortSort hsort pfx snapshots (key herr)
  · exact GetLatestSnapshot_of_no_match sortSort hsort pfx [] (by simp)

/-- The instance of C2 on the snapshots of the test: no name contains "beta",
and the call fails; "alpha" occurs, and the call returns no error. -/
theorem GetLatestSnapshot_fails_iff_witness :
    SortsBySnapshotName sortByName ∧
    ((((GetLatestSnapshot sortByName "beta".toList testedSnapshots).2 ≠ none ∧
        (GetLatestSnapshot sortByName "beta".toList testedSnapshots).1 = none) ↔
      ∀ s ∈ testedSnapshots, ¬ "beta".toList <:+: s.Name) ∧
    ((GetLatestSnapshot sortByName "beta".toList testedSnapshots).2 ≠ none →
      GetLatestSnapshot sortByName "beta".toList testedSnapshots =
        (none, some "No snapshot found")) ∧
    GetLatestSnapshot sortByName "beta".toList [] = (none, some "No snapshot found")) ∧
    GetLatestSnapshot sortByName "beta".toList testedSnapshots =
      (none, some "No snapshot found") ∧
    (GetLatestSnapshot sortByName "alpha".toList testedSnapshots).2 = none :=
  ⟨sortByName_sorts,
    GetLatestSnapshot_fails_iff sortByName sortByName_sorts "beta".toList testedSnapshots,
    by decide, by decide⟩

/-- C3: the attach transform returns `src` followed by `new`, without
deduplication: lengths and occurrence counts add up, and attaching `a` to `[a]`
gives `[a, a]`. -/
theorem attacher_appends (src new : List GoString) :
    attacher src new = src ++ new ∧
    (attacher src new).length = src.length + new.length ∧
    (∀ t, (attacher src new).count t = src.count t + new.count t) ∧
    attacher [['a']] [['a']] = [['a'], ['a']] := by
  rw [attacher_eq_append]
  exact ⟨rfl, List.length_append _ _, fun t => List.count_append _ _ _, by decide⟩

/-- C4: the detach transform returns the subsequence of `src`, in order, of the
tags that are not in `remove`: every occurrence of a removed tag is dropped,
every other tag keeps its count, and detaching `a` from `[a, b, a]` gives `[b]`. -/
theorem detacher_filters (src remove : List GoString) :
    detacher src remove = src.filter (fun s => decide (s ∉ remove)) ∧
    (detacher src remove).Sublist src ∧
    (∀ t ∈ remove, (detacher src remove).count t = 0) ∧
    (∀ t, t ∉ remove → (detacher src remove).count t = src.count t) ∧
    detacher [['a'], ['b'], ['a']] [['a']] = [['b']] := by
  have heq : detacher src remove = src.filter (fun s => decide (s ∉ remove)) := by
    rw [detacher_eq_filter]
    congr 1
    funext s
    by_cases h : s ∈ remove
    · simp [h, (InStringSlice_iff remove s).mpr h]
    · have h2 : InStringSlice remove s = false := by
        rw [← Bool.not_eq_true, InStringSlice_iff]
        exact h
      simp [h, h2]
  refine ⟨heq, ?_, ?_, ?_, by decide⟩
  · rw [heq]
    exact List.filter_sublist _
  · intro t ht
    rw [heq, List.count_eq_zero, List.mem_filter]
    intro h
    simp [ht] at h
  · intro t ht
    rw [heq, List.count_filter]
    simpa using ht

/-- C5: after the attach transform every attached tag is found by
`InStringSlice` in the resulting tag sequence. -/
theorem attached_tag_is_member (src added : List GoString) (t : GoString)
    (ht : t ∈ added) : InStringSlice (attacher src added) t = true := by
  rw [InStringSlice_iff, attacher_eq_append]
  exact List.mem_append_right src ht

/-- The test of C5: attaching `rtc-8000`. -/
theorem attached_tag_is_member_witness :
    "rtc-8000".toList ∈ ["rtc-8000".toList] ∧
    InStringSlice (attacher ["web".toList] ["rtc-8000".toList]) "rtc-8000".toList = true :=
  ⟨by decide, attached_tag_is_member ["web".toList] ["rtc-8000".toList] "rtc-8000".toList
    (by decide)⟩

/-- C6: after the detach transform no removed tag is found by `InStringSlice`
in the resulting tag sequence, however often it occurred in `src`. -/
theorem detached_tag_is_not_member (src removed : List GoString) (t : GoString)
    (ht : t ∈ removed) : InStringSlice (detacher src removed) t = false := by
  rw [← Bool.not_eq_true, InStringSlice_iff, detacher_eq_filter, List.mem_filter]
  intro h
  have hin : InStringSlice removed t = true := (InStringSlice_iff removed t).mpr ht
  simp [hin] at h

/-- The test of C6: detaching `rtc-8000`, here present twice. -/
theorem detached_tag_is_not_member_witness :
    "rtc-8000".toList ∈ ["rtc-8000".toList] ∧
    InStringSlice
      (detacher ["rtc-8000".toList, "web".toList, "rtc-8000".toList] ["rtc-8000".toList])
      "rtc-8000".toList = false :=
  ⟨by decide,
    detached_tag_is_not_member ["rtc-8000".toList, "web".toList, "rtc-8000".toList]
      ["rtc-8000".toList] "rtc-8000".toList (by decide)⟩

/-- C7: for `n ≥ 1` and a predicate that returns `true` on every call,
`MultipleConfirm` returns `true` and invokes the predicate exactly `n` times. -/
theorem MultipleConfirm_all_true (n : Int) (hn : 1 ≤ n) (p : σ → Bool × σ)
    (interval : Nat) (s : σ) (hp : ∀ j, nthCall p s j = true) :
    (MultipleConfirm n p interval s).1 = true ∧
    ((MultipleConfirm n p interval s).2.calls : Int) = n := by
  obtain ⟨h1, h2⟩ := confirmLoop_all_true p interval n.toNat ⟨s, 0, 0⟩ (fun j _ => hp j)
  refine ⟨h1, ?_⟩
  unfold MultipleConfirm
  rw [h2]
  simp only [Nat.zero_add]
  omega

/-- The test of C7: `n = 3`, an interval of one second, and the counting predicate;
the counter ends at 3. -/
theorem MultipleConfirm_all_true_witness :
    (1 : Int) ≤ 3 ∧ (∀ j, nthCall isTenableCounting 0 j = true) ∧
    ((MultipleConfirm 3 isTenableCounting 1000000000 0).1 = true ∧
      ((MultipleConfirm 3 isTenableCounting 1000000000 0).2.calls : Int) = 3) ∧
    (MultipleConfirm 3 isTenableCounting 1000000000 0).2.st = 3 :=
  ⟨by decide, nthCall_isTenableCounting 0,
    MultipleConfirm_all_true 3 (by decide) isTenableCounting 1000000000 0
      (nthCall_isTenableCounting 0),
    by decide⟩

/-- C8: for `n ≥ 1` and a predicate whose first `false` is on its `k`-th call,
`k ≤ n`, `MultipleConfirm` returns `false` and invokes the predicate exactly `k`
times; an always-false predicate is invoked exactly once. -/
theorem MultipleConfirm_first_false (n : Int) (hn : 1 ≤ n) (p : σ → Bool × σ)
    (interval : Nat) (s : σ) :
    (∀ k : Nat, 1 ≤ k → (k : Int) ≤ n → (∀ j < k - 1, nthCall p s j = true) →
        nthCall p s (k - 1) = false →
        (MultipleConfirm n p interval s).1 = false ∧
        (MultipleConfirm n p interval s).2.calls = k) ∧
    ((∀ j, nthCall p s j = false) →
        (MultipleConfirm n p interval s).1 = false ∧
        (MultipleConfirm n p interval s).2.calls = 1) := by
  have main : ∀ k : Nat, 1 ≤ k → (k : Int) ≤ n → (∀ j < k - 1, nthCall p s j = true) →
      nthCall p s (k - 1) = false →
      (MultipleConfirm n p interval s).1 = false ∧
      (MultipleConfirm n p interval s).2.calls = k := by
    intro k hk1 hkn htrue hfalse
    obtain ⟨h1, h2⟩ := confirmLoop_first_false p interval n.toNat (k - 1) ⟨s, 0, 0⟩
      (by omega) htrue hfalse
    refine ⟨h1, ?_⟩
    unfold MultipleConfirm
    rw [h2]
    simp only [Nat.zero_add]
    omega
  refine ⟨main, fun hall => ?_⟩
  exact main 1 (le_refl 1) (by exact_mod_cast hn) (fun j hj => absurd hj (by omega)) (hall 0)

/-- The test of C8: `n = 3` and the always-false predicate, invoked once; and a
predicate whose first `false` is on its third call, invoked three times. -/
theorem MultipleConfirm_first_false_witness :
    (1 : Int) ≤ 3 ∧
    ((∀ k : Nat, 1 ≤ k → (k : Int) ≤ 3 →
        (∀ j < k - 1, nthCall (fun c : Nat => (false, c)) 0 j = true) →
        nthCall (fun c : Nat => (false, c)) 0 (k - 1) = false →
        (MultipleConfirm 3 (fun c : Nat => (false, c)) 1000000000 0).1 = false ∧
        (MultipleConfirm 3 (fun c : Nat => (false, c)) 1000000000 0).2.calls = k) ∧
      ((∀ j, nthCall (fun c : Nat => (false, c)) 0 j = false) →
        (MultipleConfirm 3 (fun c : Nat => (false, c)) 1000000000 0).1 = false ∧
        (MultipleConfirm 3 (fun c : Nat => (false, c)) 1000000000 0).2.calls = 1)) ∧
    ((MultipleConfirm 3 (fun c : Nat => (false, c)) 1000000000 0).1 = false ∧
      (MultipleConfirm 3 (fun c : Nat => (false, c)) 1000000000 0).2.calls = 1) ∧
    ((MultipleConfirm 3 (fun c : Nat => (decide (c < 2), c + 1)) 1000000000 0).1 = false ∧
      (MultipleConfirm 3 (fun c : Nat => (decide (c < 2), c + 1)) 1000000000 0).2.calls = 3) :=
  ⟨by decide,
    MultipleConfirm_first_false 3 (by decide) (fun c : Nat => (false, c)) 1000000000 0,
    by decide,
    (MultipleConfirm_first_false 3 (by decide) (fun c : Nat => (decide (c < 2), c + 1))
      1000000000 0).1 3 (by decide) (by decide) (by decide) (by decide)⟩

/-- C9: when the first success of the operation is on its `k`-th invocation and
`k ≤ n`, `RunUntilSuccess` returns `true` after exactly `k` invocations. -/
theorem RunUntilSuccess_first_success (n : Int) (f : σ → Bool × σ) (interval : Nat)
    (s : σ) (k : Nat) (hk1 : 1 ≤ k) (hkn : (k : Int) ≤ n)
    (hfalse : ∀ j < k - 1, nthCall f s j = false) (htrue : nthCall f s (k - 1) = true) :
    (RunUntilSuccess n f interval s).1 = true ∧
    (RunUntilSuccess n f interval s).2.calls = k := by
  obtain ⟨h1, h2⟩ := retryLoop_first_true f interval n.toNat (k - 1) ⟨s, 0, 0⟩
    (by omega) hfalse htrue
  refine ⟨h1, ?_⟩
  unfold RunUntilSuccess
  rw [h2]
  simp only [Nat.zero_add]
  omega

/-- The cases of C9: an operation that succeeds from its third invocation, with
`n = 5` (the spec) and with `n = 3` (the test): `true` after 3 invocations. -/
theorem RunUntilSuccess_first_success_witness :
    (1 ≤ 3 ∧ ((3 : Nat) : Int) ≤ 5 ∧ (∀ j < 3 - 1, nthCall (succeedsAfter 2) 0 j = false) ∧
      nthCall (succeedsAfter 2) 0 (3 - 1) = true) ∧
    ((RunUntilSuccess 5 (succeedsAfter 2) 1000000000 0).1 = true ∧
      (RunUntilSuccess 5 (succeedsAfter 2) 1000000000 0).2.calls = 3) ∧
    ((RunUntilSuccess 3 (succeedsAfter 2) 1000000000 0).1 = true ∧
      (RunUntilSuccess 3 (succeedsAfter 2) 1000000000 0).2.calls = 3) :=
  ⟨⟨by decide, by decide, by decide, by decide⟩,
    RunUntilSuccess_first_success 5 (succeedsAfter 2) 1000000000 0 3
      (by decide) (by decide) (by decide) (by decide),
    RunUntilSuccess_first_success 3 (succeedsAfter 2) 1000000000 0 3
      (by decide) (by decide) (by decide) (by decide)⟩

/-- C10: for `n ≥ 1` and an operation that fails on each of its first `n`
invocations, `RunUntilSuccess` returns `false` after exactly `n` invocations,
whatever a later invocation would have returned. -/
theorem RunUntilSuccess_exhausted (n : Int) (hn : 1 ≤ n) (f : σ → Bool × σ)
    (interval : Nat) (s : σ) (hfail : ∀ j < n.toNat, nthCall f s j = false) :
    (RunUntilSuccess n f interval s).1 = false ∧
    ((RunUntilSuccess n f interval s).2.calls : Int) = n := by
  obtain ⟨h1, h2⟩ := retryLoop_all_false f interval n.toNat ⟨s, 0, 0⟩ hfail
  refine ⟨h1, ?_⟩
  unfold RunUntilSuccess
  rw [h2]
  simp only [Nat.zero_add]
  omega

/-- The test of C10: the operation succeeds only from its sixth invocation and
`n = 3`: `false` after 3 invocations, the counter ending at 3. -/
theorem RunUntilSuccess_exhausted_witness :
    (1 : Int) ≤ 3 ∧ (∀ j < (3 : Int).toNat, nthCall (succeedsAfter 5) 0 j = false) ∧
    nthCall (succeedsAfter 5) 0 5 = true ∧
    ((RunUntilSuccess 3 (succeedsAfter 5) 1000000000 0).1 = false ∧
      ((RunUntilSuccess 3 (succeedsAfter 5) 1000000000 0).2.calls : Int) = 3) ∧
    (RunUntilSuccess 3 (succeedsAfter 5) 1000000000 0).2.st = 3 :=
  ⟨by decide, by decide, by decide,
    RunUntilSuccess_exhausted 3 (by decide) (succeedsAfter 5) 1000000000 0 (by decide),
    by decide⟩

/-! ## The probe loop -/

theorem Probe.isTarget_iff (p : Probe) (r : Response) :
    p.isTarget r = true ↔ r = Response.ok p.target := by
  cases r with
  | err msg => simp [Probe.isTarget]
  | ok status => simp [Probe.isTarget]

/-- A cycle that starts over the timeout sends `false` and ends the probe. -/
theorem Probe.loop_timeout (p : Probe) (env : ProbeEnv) (startTime fuel : Nat)
    (st : ProbeState) (h : p.timeout < st.clock - startTime) :
    p.loop env startTime (fuel + 1) st =
      some ⟨st.clock, st.calls, st.trace ++ [Event.send false]⟩ := by
  unfold Probe.loop
  rw [if_pos h]

/-- A cycle within the timeout whose accessor call returns the target sends
`true` and ends the probe. -/
theorem Probe.loop_target (p : Probe) (env : ProbeEnv) (startTime fuel : Nat)
    (st : ProbeState) (h : st.clock - startTime ≤ p.timeout)
    (ht : p.isTarget (env.resp st.calls) = true) :
    p.loop env startTime (fuel + 1) st =
      some ⟨st.clock + env.took st.calls, st.calls + 1,
        st.trace ++ [Event.get st.calls, Event.send true]⟩ := by
  rw [Probe.isTarget_iff] at ht
  unfold Probe.loop
  rw [if_neg (by omega), ht]
  simp

/-- A cycle within the timeout whose accessor call does not return the target
sleeps and goes on. -/
theorem Probe.loop_poll (p : Probe) (env : ProbeEnv) (startTime fuel : Nat)
    (st : ProbeState) (h : st.clock - startTime ≤ p.timeout)
    (ht : p.isTarget (env.resp st.calls) = false) :
    p.loop env startTime (fuel + 1) st =
      p.loop env startTime fuel
        ⟨st.clock + env.took st.calls + p.sleepAfter (env.resp st.calls), st.calls + 1,
          st.trace ++ [Event.get st.calls, Event.sleep (p.sleepAfter (env.resp st.calls))]⟩ := by
  conv_lhs => unfold Probe.loop
  rw [if_neg (by omega)]
  cases hr : env.resp st.calls with
  | err msg => simp [Probe.sleepAfter]
  | ok status =>
    have hne : status ≠ p.target := by
      intro he
      rw [hr, he] at ht
      simp [Probe.isTarget] at ht
    simp [Probe.sleepAfter, hne]

theorem Probe.pollTime_succ (p : Probe) (env : ProbeEnv) (c j : Nat) :
    p.pollTime env c (j + 1) =
      p.pollTime env c j + env.took (c + j) + p.sleepAfter (env.resp (c + j)) := by
  induction j generalizing c with
  | zero => simp [Probe.pollTime]
  | succ j ih =>
    have h := ih (c + 1)
    have e : c + 1 + j = c + (j + 1) := by omega
    rw [e] at h
    rw [Probe.pollTime, h, Probe.pollTime]
    omega

theorem Probe.polls_succ (p : Probe) (env : ProbeEnv) (c j : Nat) :
    p.polls env c (j + 1) =
      p.polls env c j ++
        [Event.get (c + j), Event.sleep (p.sleepAfter (env.resp (c + j)))] := by
  induction j generalizing c with
  | zero => simp [Probe.polls]
  | succ j ih =>
    have h := ih (c + 1)
    have e : c + 1 + j = c + (j + 1) := by omega
    rw [e] at h
    rw [Probe.polls, h, Probe.polls]
    simp

/-- After `j` polling cycles within the timeout the loop is in the state those
cycles lead to. -/
theorem Probe.loop_polls (p : Probe) (env : ProbeEnv) (startTime : Nat) (j fuel : Nat)
    (st : ProbeState)
    (hnot : ∀ i < j, p.isTarget (env.resp (st.calls + i)) = false)
    (hin : ∀ i < j, st.clock + p.pollTime env st.calls i - startTime ≤ p.timeout) :
    p.loop env startTime (fuel + j) st =
      p.loop env startTime fuel
        ⟨st.clock + p.pollTime env st.calls j, st.calls + j,
          st.trace ++ p.polls env st.calls j⟩ := by
  induction j generalizing fuel with
  | zero => simp [Probe.pollTime, Probe.polls]
  | succ j ih =>
    have h1 := ih (fuel + 1) (fun i hi => hnot i (by omega)) (fun i hi => hin i (by omega))
    have e : fuel + (j + 1) = fuel + 1 + j := by omega
    rw [e, h1, Probe.loop_poll p env startTime fuel _ (hin j (by omega)) (hnot j (by omega))]
    rw [Probe.pollTime_succ, Probe.polls_succ]
    simp only [List.append_assoc]
    congr 2
    omega

/-- Every completed run of the loop is `j` polling cycles within the timeout
followed by one ending cycle: a timeout, or an accessor call that returns the
target. -/
theorem Probe.loop_spec (p : Probe) (env : ProbeEnv) (startTime : Nat) (fuel : Nat)
    (st st' : ProbeState) (h : p.loop env startTime fuel st = some st') :
    ∃ j,
      (∀ i < j, p.isTarget (env.resp (st.calls + i)) = false) ∧
      (∀ i < j, st.clock + p.pollTime env st.calls i - startTime ≤ p.timeout) ∧
      ((p.timeout < st.clock + p.pollTime env st.calls j - startTime ∧
          st' = ⟨st.clock + p.pollTime env st.calls j, st.calls + j,
            st.trace ++ p.polls env st.calls j ++ [Event.send false]⟩) ∨
        (st.clock + p.pollTime env st.calls j - startTime ≤ p.timeout ∧
          p.isTarget (env.resp (st.calls + j)) = true ∧
          st' = ⟨st.clock + p.pollTime env st.calls j + env.took (st.calls + j),
            st.calls + j + 1,
            st.trace ++ p.polls env st.calls j ++
              [Event.get (st.calls + j), Event.send true]⟩)) := by
  induction fuel generalizing st with
  | zero => simp [Probe.loop] at h
  | succ fuel ih =>
    by_cases hto : p.timeout < st.clock - startTime
    · rw [Probe.loop_timeout p env startTime fuel st hto] at h
      refine ⟨0, by simp, by simp, Or.inl ⟨by simpa [Probe.pollTime] using hto, ?_⟩⟩
      simp only [Option.some.injEq] at h
      simp [Probe.pollTime, Probe.polls, ← h]
    · have hin : st.clock - startTime ≤ p.timeout := by omega
      cases ht : p.isTarget (env.resp st.calls) with
      | true =>
        rw [Probe.loop_target p env startTime fuel st hin ht] at h
        refine ⟨0, by simp, by simp,
          Or.inr ⟨by simpa [Probe.pollTime] using hin, by simpa using ht, ?_⟩⟩
        simp only [Option.some.injEq] at h
        simp [Probe.pollTime, Probe.polls, ← h]
      | false =>
        rw [Probe.loop_poll p env startTime fuel st hin ht] at h
        obtain ⟨j, hnot, hwithin, hend⟩ := ih _ h
        simp only at hnot hwithin hend
        have hidx : ∀ i, st.calls + 1 + i = st.calls + (i + 1) := fun i => by omega
        have htime : ∀ i, st.clock + env.took st.calls + p.sleepAfter (env.resp st.calls) +
            p.pollTime env (st.calls + 1) i = st.clock + p.pollTime env st.calls (i + 1) := by
          intro i
          rw [Probe.pollTime]
          omega
        have htrace : st.trace ++
            [Event.get st.calls, Event.sleep (p.sleepAfter (env.resp st.calls))] ++
            p.polls env (st.calls + 1) j = st.trace ++ p.polls env st.calls (j + 1) := by
          rw [Probe.polls]
          simp
        refine ⟨j + 1, ?_, ?_, ?_⟩
        · intro i hi
          cases i with
          | zero => simpa using ht
          | succ i =>
            rw [← hidx]
            exact hnot i (by omega)
        · intro i hi
          cases i with
          | zero => simpa [Probe.pollTime] using hin
          | succ i =>
            rw [← htime]
            exact hwithin i (by omega)
        · rw [htime, htrace, hidx] at hend
          rcases hend with ⟨h1, h2⟩ | ⟨h1, h2, h3⟩
          · exact Or.inl ⟨h1, by rw [h2]⟩
          · exact Or.inr ⟨h1, h2, by rw [h3]⟩

/-- More fuel does not change the result of a completed run. -/
theorem Probe.loop_mono (p : Probe) (env : ProbeEnv) (startTime : Nat) (fuel extra : Nat)
    (st st' : ProbeState) (h : p.loop env startTime fuel st = some st') :
    p.loop env startTime (fuel + extra) st = some st' := by
  induction fuel generalizing st with
  | zero => simp [Probe.loop] at h
  | succ fuel ih =>
    have e : fuel + 1 + extra = fuel + extra + 1 := by omega
    rw [e]
    by_cases hto : p.timeout < st.clock - startTime
    · rw [Probe.loop_timeout p env startTime _ st hto] at h ⊢
      exact h
    · have hin : st.clock - startTime ≤ p.timeout := by omega
      cases ht : p.isTarget (env.resp st.calls) with
      | true =>
        rw [Probe.loop_target p env startTime _ st hin ht] at h ⊢
        exact h
      | false =>
        rw [Probe.loop_poll p env startTime _ st hin ht] at h ⊢
        exact ih _ h

/-- The loop ends: when every sleep is at least `m` and `fuel * m` more time
brings the clock over the timeout, `fuel + 1` cycles are enough. -/
theorem Probe.loop_terminates (p : Probe) (env : ProbeEnv) (startTime m : Nat)
    (hm1 : m ≤ p.sleepOnErr) (hm2 : m ≤ p.sleepOnStatus) (fuel : Nat) (st : ProbeState)
    (hstart : startTime ≤ st.clock)
    (hfuel : p.timeout < st.clock - startTime + fuel * m) :
    ∃ st', p.loop env startTime (fuel + 1) st = some st' := by
  induction fuel generalizing st with
  | zero =>
    exact ⟨_, Probe.loop_timeout p env startTime 0 st (by simpa using hfuel)⟩
  | succ fuel ih =>
    by_cases hto : p.timeout < st.clock - startTime
    · exact ⟨_, Probe.loop_timeout p env startTime _ st hto⟩
    · have hin : st.clock - startTime ≤ p.timeout := by omega
      cases ht : p.isTarget (env.resp st.calls) with
      | true => exact ⟨_, Probe.loop_target p env startTime _ st hin ht⟩
      | false =>
        rw [Probe.loop_poll p env startTime _ st hin ht]
        have hs : m ≤ p.sleepAfter (env.resp st.calls) := by
          cases env.resp st.calls <;> simpa [Probe.sleepAfter]
        apply ih
        · simp only
          omega
        · simp only
          rw [Nat.succ_mul] at hfuel
          omega

/-! ## Traces -/

theorem sent_append (a b : List Event) : sent (a ++ b) = sent a ++ sent b := by
  induction a with
  | nil => rfl
  | cons e rest ih => cases e <;> simp [sent, ih]

theorem slept_append (a b : List Event) : slept (a ++ b) = slept a ++ slept b := by
  induction a with
  | nil => rfl
  | cons e rest ih => cases e <;> simp [slept, ih]

theorem Probe.sent_polls (p : Probe) (env : ProbeEnv) (c j : Nat) :
    sent (p.polls env c j) = [] := by
  induction j generalizing c with
  | zero => rfl
  | succ j ih => simp [Probe.polls, sent, ih]

theorem Probe.slept_polls (p : Probe) (env : ProbeEnv) (c j : Nat) :
    slept (p.polls env c j) =
      (List.range j).map (fun i => p.sleepAfter (env.resp (c + i))) := by
  induction j with
  | zero => rfl
  | succ j ih =>
    rw [Probe.polls_succ, slept_append, ih, List.range_succ, List.map_append]
    simp [slept]

theorem Probe.mem_polls (p : Probe) (env : ProbeEnv) (c j : Nat) (e : Event)
    (he : e ∈ p.polls env c j) : (∃ i, e = Event.get i) ∨ (∃ d, e = Event.sleep d) := by
  induction j generalizing c with
  | zero => simp [Probe.polls] at he
  | succ j ih =>
    simp only [Probe.polls, List.mem_cons] at he
    rcases he with h | h | h
    · exact Or.inl ⟨_, h⟩
    · exact Or.inr ⟨_, h⟩
    · exact ih _ h

theorem Probe.le_pollTime (p : Probe) (env : ProbeEnv) (m : Nat)
    (hm1 : m ≤ p.sleepOnErr) (hm2 : m ≤ p.sleepOnStatus) (c j : Nat) :
    j * m ≤ p.pollTime env c j := by
  induction j generalizing c with
  | zero => simp
  | succ j ih =>
    have hs : m ≤ p.sleepAfter (env.resp c) := by
      cases env.resp c <;> simpa [Probe.sleepAfter]
    have h := ih (c + 1)
    rw [Probe.pollTime, Nat.succ_mul]
    omega

theorem Probe.pollTime_le (p : Probe) (env : ProbeEnv) (m : Nat)
    (htook : ∀ i, env.took i = 0)
    (hm1 : p.sleepOnErr ≤ m) (hm2 : p.sleepOnStatus ≤ m) (c j : Nat) :
    p.pollTime env c j ≤ j * m := by
  induction j generalizing c with
  | zero => simp [Probe.pollTime]
  | succ j ih =>
    have hs : p.sleepAfter (env.resp c) ≤ m := by
      cases env.resp c <;> simpa [Probe.sleepAfter]
    have h := ih (c + 1)
    rw [Probe.pollTime, Nat.succ_mul, htook]
    omega

/-- The shape of a completed run of a probe, from its start. -/
theorem Probe.run_spec (p : Probe) (env : ProbeEnv) (now fuel : Nat) (st : ProbeState)
    (h : p.run env now fuel = some st) :
    ∃ j,
      (∀ i < j, p.isTarget (env.resp i) = false) ∧
      (∀ i < j, p.pollTime env 0 i ≤ p.timeout) ∧
      ((p.timeout < p.pollTime env 0 j ∧
          st = ⟨now + p.pollTime env 0 j, j, p.polls env 0 j ++ [Event.send false]⟩) ∨
        (p.pollTime env 0 j ≤ p.timeout ∧ p.isTarget (env.resp j) = true ∧
          st = ⟨now + p.pollTime env 0 j + env.took j, j + 1,
            p.polls env 0 j ++ [Event.get j, Event.send true]⟩)) := by
  obtain ⟨j, h1, h2, h3⟩ := Probe.loop_spec p env now fuel _ st h
  simp only [Nat.zero_add, List.nil_append, Nat.add_sub_cancel_left] at h1 h2 h3
  exact ⟨j, h1, h2, h3⟩

/-- A probe whose sleeps are at least `m > 0` completes within
`timeout / m + 2` cycles, and more fuel gives the same final state. -/
theorem Probe.run_terminates (p : Probe) (env : ProbeEnv) (now m n : Nat)
    (hm1 : m ≤ p.sleepOnErr) (hm2 : m ≤ p.sleepOnStatus) (hn : p.timeout < n * m) :
    ∃ st, ∀ fuel, n + 1 ≤ fuel → p.run env now fuel = some st := by
  obtain ⟨st, hst⟩ := Probe.loop_terminates p env now m hm1 hm2 n ⟨now, 0, []⟩
    (Nat.le_refl now) (by simpa using hn)
  refine ⟨st, fun fuel hfuel => ?_⟩
  have e : fuel = n + 1 + (fuel - (n + 1)) := by omega
  rw [e]
  exact Probe.loop_mono p env now _ _ _ st hst

/-- The number of accessor calls of a completed run: all but the last are
followed by a sleep of at least `m`, and the last one starts within the timeout. -/
theorem Probe.calls_bound (p : Probe) (env : ProbeEnv) (now fuel m : Nat) (st : ProbeState)
    (hm1 : m ≤ p.sleepOnErr) (hm2 : m ≤ p.sleepOnStatus)
    (h : p.run env now fuel = some st) : (st.calls - 1) * m ≤ p.timeout := by
  obtain ⟨j, _, hwithin, hend⟩ := Probe.run_spec p env now fuel st h
  rcases hend with ⟨_, hst⟩ | ⟨hle, _, hst⟩
  · rw [hst]
    simp only
    cases j with
    | zero => simp
    | succ j =>
      have h1 := hwithin j (by omega)
      have h2 := Probe.le_pollTime p env m hm1 hm2 0 j
      simp only [Nat.add_sub_cancel]
      omega
  · rw [hst]
    have h2 := Probe.le_pollTime p env m hm1 hm2 0 j
    simp only [Nat.add_sub_cancel]
    omega

/-! ## The claims on the probes -/

/-- C11: a completed run of a probe sends exactly one boolean on the observer
channel, and that send is its last action: the trace is accessor calls and sleeps
followed by the one send. -/
theorem probe_sends_once_at_end (p : Probe) (env : ProbeEnv) (now fuel : Nat)
    (st : ProbeState) (h : p.run env now fuel = some st) :
    ∃ pre b, st.trace = pre ++ [Event.send b] ∧ sent st.trace = [b] ∧
      ∀ e ∈ pre, (∃ i, e = Event.get i) ∨ (∃ d, e = Event.sleep d) := by
  obtain ⟨j, _, _, hend⟩ := Probe.run_spec p env now fuel st h
  rcases hend with ⟨_, hst⟩ | ⟨_, _, hst⟩
  · refine ⟨p.polls env 0 j, false, by rw [hst], ?_, fun e he => Probe.mem_polls p env 0 j e he⟩
    rw [hst]
    simp [sent_append, Probe.sent_polls, sent]
  · refine ⟨p.polls env 0 j ++ [Event.get j], true, by rw [hst]; simp, ?_, ?_⟩
    · rw [hst]
      simp [sent_append, Probe.sent_polls, sent]
    · intro e he
      rcases List.mem_append.mp he with h1 | h1
      · exact Probe.mem_polls p env 0 j e h1
      · exact Or.inl ⟨j, by simpa using h1⟩

/-- An instance of C11: `ProbeVmRunning` on "not found" twice, then `RUNNING`. -/
theorem probe_sends_once_at_end_witness :
    ProbeVmRunning.run (notFoundTwice "RUNNING".toList) 0 20 =
      some ⟨20000000000, 3,
        [Event.get 0, Event.sleep 10000000000, Event.get 1, Event.sleep 10000000000,
          Event.get 2, Event.send true]⟩ ∧
    ∃ pre b,
      [Event.get 0, Event.sleep 10000000000, Event.get 1, Event.sleep 10000000000,
          Event.get 2, Event.send true] = pre ++ [Event.send b] ∧
      sent [Event.get 0, Event.sleep 10000000000, Event.get 1, Event.sleep 10000000000,
          Event.get 2, Event.send true] = [b] ∧
      ∀ e ∈ pre, (∃ i, e = Event.get i) ∨ (∃ d, e = Event.sleep d) :=
  ⟨by decide,
    probe_sends_once_at_end ProbeVmRunning (notFoundTwice "RUNNING".toList) 0 20
      ⟨20000000000, 3,
        [Event.get 0, Event.sleep 10000000000, Event.get 1, Event.sleep 10000000000,
          Event.get 2, Event.send true]⟩ (by decide)⟩

/-- C12: whatever the accessor returns and however long its calls take, each
probe ends: `ProbeVmRunning` and `ProbeVmStopped` within 20 cycles and at most
19 accessor calls, `ProbeDiskCreation` within 38 cycles and at most 37 accessor
calls; 19 calls are reached when the calls take no time. -/
theorem probes_terminate (env : ProbeEnv) (now : Nat) :
    (∃ st, (∀ fuel, 20 ≤ fuel → ProbeVmRunning.run env now fuel = some st) ∧ st.calls ≤ 19) ∧
    (∃ st, (∀ fuel, 20 ≤ fuel → ProbeVmStopped.run env now fuel = some st) ∧ st.calls ≤ 19) ∧
    (∃ st, (∀ fuel, 38 ≤ fuel → ProbeDiskCreation.run env now fuel = some st) ∧
      st.calls ≤ 37) ∧
    (ProbeVmRunning.run neverReady 0 20).map (fun st => st.calls) = some 19 := by
  refine ⟨?_, ?_, ?_, by decide⟩
  · obtain ⟨st, hst⟩ := Probe.run_terminates ProbeVmRunning env now 10000000000 19
      (by decide) (by decide) (by decide)
    refine ⟨st, hst, ?_⟩
    have hb := Probe.calls_bound ProbeVmRunning env now 20 10000000000 st
      (by decide) (by decide) (hst 20 (Nat.le_refl 20))
    have ht : ProbeVmRunning.timeout = 180000000000 := by decide
    rw [ht] at hb
    omega
  · obtain ⟨st, hst⟩ := Probe.run_terminates ProbeVmStopped env now 10000000000 19
      (by decide) (by decide) (by decide)
    refine ⟨st, hst, ?_⟩
    have hb := Probe.calls_bound ProbeVmStopped env now 20 10000000000 st
      (by decide) (by decide) (hst 20 (Nat.le_refl 20))
    have ht : ProbeVmStopped.timeout = 180000000000 := by decide
    rw [ht] at hb
    omega
  · obtain ⟨st, hst⟩ := Probe.run_terminates ProbeDiskCreation env now 5000000000 37
      (by decide) (by decide) (by decide)
    refine ⟨st, hst, ?_⟩
    have hb := Probe.calls_bound ProbeDiskCreation env now 38 5000000000 st
      (by decide) (by decide) (hst 38 (Nat.le_refl 38))
    have ht : ProbeDiskCreation.timeout = 180000000000 := by decide
    rw [ht] at hb
    omega

/-- C13: a probe sends `true` only if its latest accessor call returned a resource
whose `Status` is the target of the probe, and an accessor call that returns such
a resource is followed at once by the send of `true`, with no sleep; the targets
are `RUNNING`, `TERMINATED` and `READY`. -/
theorem probe_true_iff_target (p : Probe) (env : ProbeEnv) (now fuel : Nat)
    (st : ProbeState) (h : p.run env now fuel = some st) :
    (true ∈ sent st.trace →
      1 ≤ st.calls ∧ env.resp (st.calls - 1) = Response.ok p.target) ∧
    (∀ i < st.calls, env.resp i = Response.ok p.target →
      i + 1 = st.calls ∧ sent st.trace = [true] ∧
      ∃ pre, st.trace = pre ++ [Event.get i, Event.send true]) ∧
    ProbeVmRunning.target = "RUNNING".toList ∧
    ProbeVmStopped.target = "TERMINATED".toList ∧
    ProbeDiskCreation.target = "READY".toList := by
  obtain ⟨j, hnot, _, hend⟩ := Probe.run_spec p env now fuel st h
  refine ⟨?_, ?_, rfl, rfl, rfl⟩
  · rcases hend with ⟨_, hst⟩ | ⟨_, ht, hst⟩
    · rw [hst]
      simp [sent_append, Probe.sent_polls, sent]
    · intro _
      rw [hst]
      exact ⟨by simp, by simpa using (Probe.isTarget_iff p _).mp ht⟩
  · intro i hi hresp
    have hti : p.isTarget (env.resp i) = true := (Probe.isTarget_iff p _).mpr hresp
    rcases hend with ⟨_, hst⟩ | ⟨_, _, hst⟩
    · rw [hst] at hi
      have := hnot i hi
      rw [hti] at this
      exact absurd this (by simp)
    · rw [hst] at hi
      simp only at hi
      have hij : i = j := by
        by_contra hne
        have := hnot i (by omega)
        rw [hti] at this
        exact absurd this (by simp)
      subst hij
      rw [hst]
      refine ⟨rfl, ?_, p.polls env 0 i, rfl⟩
      simp [sent_append, Probe.sent_polls, sent]

/-- An instance of C13: `ProbeVmStopped` on "not found" twice, then `TERMINATED`. -/
theorem probe_true_iff_target_witness :
    ProbeVmStopped.run (notFoundTwice "TERMINATED".toList) 0 20 =
      some ⟨20000000000, 3,
        [Event.get 0, Event.sleep 10000000000, Event.get 1, Event.sleep 10000000000,
          Event.get 2, Event.send true]⟩ ∧
    (notFoundTwice "TERMINATED".toList).resp 2 = Response.ok ProbeVmStopped.target ∧
    (2 + 1 = 3 ∧
      sent [Event.get 0, Event.sleep 10000000000, Event.get 1, Event.sleep 10000000000,
          Event.get 2, Event.send true] = [true] ∧
      ∃ pre, [Event.get 0, Event.sleep 10000000000, Event.get 1, Event.sleep 10000000000,
          Event.get 2, Event.send true] = pre ++ [Event.get 2, Event.send true]) :=
  ⟨by decide, by decide,
    (probe_true_iff_target ProbeVmStopped (notFoundTwice "TERMINATED".toList) 0 20
      ⟨20000000000, 3,
        [Event.get 0, Event.sleep 10000000000, Event.get 1, Event.sleep 10000000000,
          Event.get 2, Event.send true]⟩ (by decide)).2.1 2 (by decide) (by decide)⟩

/-! ## Timing of the probes -/

theorem Probe.isTarget_eq_false (p : Probe) (r : Response) (h : r ≠ Response.ok p.target) :
    p.isTarget r = false := by
  rw [← Bool.not_eq_true, Probe.isTarget_iff]
  exact h

/-- With accessor calls that take no time and one sleep duration `d`, `j`
polling cycles take `j * d`. -/
theorem Probe.pollTime_uniform (p : Probe) (env : ProbeEnv) (d : Nat)
    (htook : ∀ i, env.took i = 0) (h1 : p.sleepOnErr = d) (h2 : p.sleepOnStatus = d)
    (c j : Nat) : p.pollTime env c j = j * d :=
  Nat.le_antisymm (Probe.pollTime_le p env d htook (by omega) (by omega) c j)
    (Probe.le_pollTime p env d (by omega) (by omega) c j)

theorem Probe.slept_polls_uniform (p : Probe) (env : ProbeEnv) (d : Nat)
    (h1 : p.sleepOnErr = d) (h2 : p.sleepOnStatus = d) (c j : Nat) :
    slept (p.polls env c j) = List.replicate j d := by
  induction j generalizing c with
  | zero => rfl
  | succ j ih =>
    have hs : p.sleepAfter (env.resp c) = d := by
      cases env.resp c <;> simpa [Probe.sleepAfter]
    simp [Probe.polls, slept, ih, hs, List.replicate_succ]

/-- The run of a probe whose accessor first returns the target on call `j + 1`,
when the `j` polling cycles before it start within the timeout. -/
theorem Probe.run_ready (p : Probe) (env : ProbeEnv) (now j fuel : Nat)
    (hnot : ∀ i < j, p.isTarget (env.resp i) = false)
    (hready : p.isTarget (env.resp j) = true)
    (hwithin : ∀ i ≤ j, p.pollTime env 0 i ≤ p.timeout) (hfuel : j + 1 ≤ fuel) :
    p.run env now fuel =
      some ⟨now + p.pollTime env 0 j + env.took j, j + 1,
        p.polls env 0 j ++ [Event.get j, Event.send true]⟩ := by
  obtain ⟨extra, rfl⟩ : ∃ extra, fuel = extra + 1 + j := ⟨fuel - (j + 1), by omega⟩
  unfold Probe.run
  rw [Probe.loop_polls p env now j (extra + 1) ⟨now, 0, []⟩
    (by simpa using hnot)
    (fun i hi => by simpa using hwithin i (by omega))]
  rw [Probe.loop_target p env now extra _ (by simpa using hwithin j (Nat.le_refl j))
    (by simpa using hready)]
  simp

/-- A run in which the accessor never returns the target and its calls take no
time ends by a timeout, at an elapsed time over the timeout by at most the
longest sleep. -/
theorem Probe.run_never (p : Probe) (env : ProbeEnv) (now fuel M : Nat) (st : ProbeState)
    (htook : ∀ i, env.took i = 0) (hnever : ∀ i, p.isTarget (env.resp i) = false)
    (hM1 : p.sleepOnErr ≤ M) (hM2 : p.sleepOnStatus ≤ M)
    (h : p.run env now fuel = some st) :
    st = ⟨now + p.pollTime env 0 st.calls, st.calls,
        p.polls env 0 st.calls ++ [Event.send false]⟩ ∧
      p.timeout < p.pollTime env 0 st.calls ∧
      p.pollTime env 0 st.calls ≤ p.timeout + M ∧
      1 ≤ st.calls ∧ p.pollTime env 0 (st.calls - 1) ≤ p.timeout := by
  obtain ⟨j, _, hwithin, hend⟩ := Probe.run_spec p env now fuel st h
  rcases hend with ⟨hover, hst⟩ | ⟨_, ht, _⟩
  · have hcalls : st.calls = j := by rw [hst]
    rw [hcalls]
    cases j with
    | zero => simp [Probe.pollTime] at hover
    | succ j =>
      have hprev := hwithin j (by omega)
      have hs : p.sleepAfter (env.resp (0 + j)) ≤ M := by
        cases env.resp (0 + j) <;> simpa [Probe.sleepAfter]
      have hsucc := Probe.pollTime_succ p env 0 j
      rw [htook] at hsucc
      refine ⟨hst, hover, by omega, by omega, by simpa using hprev⟩
  · rw [hnever] at ht
    exact absurd ht (by simp)

/-- C14: for `ProbeVmRunning` and `ProbeVmStopped`, with a clock advanced only by
the sleeps: if the first `k - 1` accessor calls do not return the target state,
call `k` does, and `(k - 1) × 10 s` is within the timeout, the probe sends `true`
after exactly `k` accessor calls and `k - 1` sleeps, `(k - 1) × 10 s` after its
start. -/
theorem probe_ready_at_kth_call (p : Probe) (hp : p = ProbeVmRunning ∨ p = ProbeVmStopped)
    (env : ProbeEnv) (htook : ∀ i, env.took i = 0) (k : Nat) (hk : 1 ≤ k)
    (hnot : ∀ i < k - 1, env.resp i ≠ Response.ok p.target)
    (hready : env.resp (k - 1) = Response.ok p.target)
    (hwithin : (k - 1) * (10 * Second) ≤ p.timeout)
    (now fuel : Nat) (hfuel : k ≤ fuel) :
    ∃ st, p.run env now fuel = some st ∧ sent st.trace = [true] ∧ st.calls = k ∧
      slept st.trace = List.replicate (k - 1) (10 * Second) ∧
      st.clock - now = (k - 1) * (10 * Second) := by
  have hd1 : p.sleepOnErr = 10 * Second := by rcases hp with rfl | rfl <;> rfl
  have hd2 : p.sleepOnStatus = 10 * Second := by rcases hp with rfl | rfl <;> rfl
  have hpt : ∀ i, p.pollTime env 0 i = i * (10 * Second) :=
    fun i => Probe.pollTime_uniform p env _ htook hd1 hd2 0 i
  have hrun := Probe.run_ready p env now (k - 1) fuel
    (fun i hi => Probe.isTarget_eq_false p _ (hnot i hi))
    ((Probe.isTarget_iff p _).mpr hready)
    (fun i hi => by
      rw [hpt]
      exact Nat.le_trans (Nat.mul_le_mul_right _ hi) hwithin)
    (by omega)
  refine ⟨_, hrun, ?_, by simp only; omega, ?_, ?_⟩
  · simp [sent_append, Probe.sent_polls, sent]
  · simp [slept_append, Probe.slept_polls_uniform p env _ hd1 hd2, slept]
  · simp only [hpt, htook]
    omega

/-- The instance of C14 in the spec: "not found" twice, then the target on the
third call: `true` after 3 calls and 2 sleeps, 20 s after the start. -/
theorem probe_ready_at_kth_call_witness :
    (ProbeVmRunning = ProbeVmRunning ∨ ProbeVmRunning = ProbeVmStopped) ∧
    (∀ i, (notFoundTwice "RUNNING".toList).took i = 0) ∧ 1 ≤ 3 ∧
    (∀ i < 3 - 1, (notFoundTwice "RUNNING".toList).resp i ≠
      Response.ok ProbeVmRunning.target) ∧
    (notFoundTwice "RUNNING".toList).resp (3 - 1) = Response.ok ProbeVmRunning.target ∧
    (3 - 1) * (10 * Second) ≤ ProbeVmRunning.timeout ∧ 3 ≤ 3 ∧
    ∃ st, ProbeVmRunning.run (notFoundTwice "RUNNING".toList) 7 3 = some st ∧
      sent st.trace = [true] ∧ st.calls = 3 ∧
      slept st.trace = List.replicate (3 - 1) (10 * Second) ∧
      st.clock - 7 = (3 - 1) * (10 * Second) :=
  ⟨Or.inl rfl, fun _ => rfl, by decide, by decide, by decide, by decide, by decide,
    probe_ready_at_kth_call ProbeVmRunning (Or.inl rfl) (notFoundTwice "RUNNING".toList)
      (fun _ => rfl) 3 (by decide) (by decide) (by decide) (by decide) 7 3 (by decide)⟩

/-- The three probes: their constants. -/
theorem probe_constants (p : Probe)
    (hp : p = ProbeVmRunning ∨ p = ProbeVmStopped ∨ p = ProbeDiskCreation) :
    p.timeout = 180000000000 ∧ p.sleepOnErr = 10000000000 ∧
      5000000000 ≤ p.sleepOnStatus ∧ p.sleepOnStatus ≤ 10000000000 := by
  rcases hp with rfl | rfl | rfl <;> decide

/-- Each of the three probes completes within 38 cycles, and every completed run
ends in the same state. -/
theorem probe_final_state (p : Probe)
    (hp : p = ProbeVmRunning ∨ p = ProbeVmStopped ∨ p = ProbeDiskCreation)
    (env : ProbeEnv) (now : Nat) :
    ∃ st, (∀ fuel, 38 ≤ fuel → p.run env now fuel = some st) ∧
      ∀ fuel st', p.run env now fuel = some st' → st' = st := by
  obtain ⟨ht, h1, h2, _⟩ := probe_constants p hp
  obtain ⟨st, hst⟩ := Probe.run_terminates p env now 5000000000 37
    (by omega) (by omega) (by omega)
  refine ⟨st, hst, fun fuel st' h' => ?_⟩
  have hm := Probe.loop_mono p env now fuel 38 _ st' h'
  have hs := hst (fuel + 38) (by omega)
  unfold Probe.run at hs
  rw [hm] at hs
  exact Option.some.inj hs

/-- The case against C15 as stated: `ProbeVmRunning`, with an accessor that always
reports `PENDING` and calls that take no time, sends `false` 190 s after its
start, which is not before timeout + interval = 190 s. -/
theorem probe_timeout_at_190s :
    (∀ i, neverReady.took i = 0) ∧
    (∀ i, neverReady.resp i ≠ Response.ok ProbeVmRunning.target) ∧
    (ProbeVmRunning.run neverReady 0 20).map (fun st => (sent st.trace, st.clock - 0)) =
      some ([false], 190 * Second) ∧
    ¬ (190 * Second < ProbeVmRunning.timeout + 10 * Second) :=
  ⟨fun _ => rfl,
    fun _ => (by decide : Response.ok "PENDING".toList ≠ Response.ok ProbeVmRunning.target),
    by decide, by decide⟩

/-- C15, amended: with a clock advanced only by the sleeps and an accessor that
never reports the target state, each probe sends `false` at an elapsed time `e`
with `timeout < e ≤ timeout + 10 s`; for `ProbeVmRunning` and `ProbeVmStopped`
`e` is 190 s. -/
theorem probe_timeout_elapsed (p : Probe)
    (hp : p = ProbeVmRunning ∨ p = ProbeVmStopped ∨ p = ProbeDiskCreation)
    (env : ProbeEnv) (htook : ∀ i, env.took i = 0)
    (hnever : ∀ i, env.resp i ≠ Response.ok p.target) (now : Nat) :
    ∃ st, (∀ fuel, 38 ≤ fuel → p.run env now fuel = some st) ∧
      sent st.trace = [false] ∧
      p.timeout < st.clock - now ∧ st.clock - now ≤ p.timeout + 10 * Second ∧
      (p = ProbeVmRunning ∨ p = ProbeVmStopped → st.clock - now = 190 * Second) := by
  obtain ⟨ht, h1, h2, h3⟩ := probe_constants p hp
  obtain ⟨st, hst, _⟩ := probe_final_state p hp env now
  obtain ⟨hshape, hover, hle, hpos, hprev⟩ := Probe.run_never p env now 38 10000000000 st
    htook (fun i => Probe.isTarget_eq_false p _ (hnever i)) (by omega) (by omega)
    (hst 38 (Nat.le_refl 38))
  have hclock : st.clock - now = p.pollTime env 0 st.calls := by
    have := congrArg ProbeState.clock hshape
    simp only at this
    omega
  have hsec : 10 * Second = 10000000000 := by decide
  have hsec2 : 190 * Second = 190000000000 := by decide
  refine ⟨st, hst, ?_, by omega, by omega, ?_⟩
  · rw [hshape]
    simp [sent_append, Probe.sent_polls, sent]
  · intro hvm
    have hs2 : p.sleepOnStatus = 10000000000 := by rcases hvm with rfl | rfl <;> decide
    have e1 := Probe.pollTime_uniform p env 10000000000 htook h1 hs2 0 st.calls
    have e2 := Probe.pollTime_uniform p env 10000000000 htook h1 hs2 0 (st.calls - 1)
    rw [hclock, hsec2]
    omega

/-- The instance of C15 for `ProbeVmRunning` and the accessor that always reports
`PENDING`. -/
theorem probe_timeout_elapsed_witness :
    (ProbeVmRunning = ProbeVmRunning ∨ ProbeVmRunning = ProbeVmStopped ∨
      ProbeVmRunning = ProbeDiskCreation) ∧
    (∀ i, neverReady.took i = 0) ∧
    (∀ i, neverReady.resp i ≠ Response.ok ProbeVmRunning.target) ∧
    ∃ st, (∀ fuel, 38 ≤ fuel → ProbeVmRunning.run neverReady 5 fuel = some st) ∧
      sent st.trace = [false] ∧
      ProbeVmRunning.timeout < st.clock - 5 ∧
      st.clock - 5 ≤ ProbeVmRunning.timeout + 10 * Second ∧
      (ProbeVmRunning = ProbeVmRunning ∨ ProbeVmRunning = ProbeVmStopped →
        st.clock - 5 = 190 * Second) :=
  ⟨Or.inl rfl, fun _ => rfl,
    fun _ => (by decide : Response.ok "PENDING".toList ≠ Response.ok ProbeVmRunning.target),
    probe_timeout_elapsed ProbeVmRunning (Or.inl rfl) neverReady (fun _ => rfl)
      (fun _ => (by decide :
        Response.ok "PENDING".toList ≠ Response.ok ProbeVmRunning.target)) 5⟩

/-- C16: with an accessor that returns an error on every call, a probe never
sends `true` and does not stop early: every run ends in the same state, whose
trace is one accessor call and one 10 s sleep per cycle followed by the send of
`false`, made when the time since the start is over the timeout, every accessor
call having started within the timeout. -/
theorem probe_all_errors (p : Probe)
    (hp : p = ProbeVmRunning ∨ p = ProbeVmStopped ∨ p = ProbeDiskCreation)
    (env : ProbeEnv) (herr : ∀ i, ∃ msg, env.resp i = Response.err msg) (now : Nat) :
    ∃ st, (∀ fuel, 38 ≤ fuel → p.run env now fuel = some st) ∧
      (∀ fuel st', p.run env now fuel = some st' → st' = st) ∧
      sent st.trace = [false] ∧ 1 ≤ st.calls ∧
      st.trace = p.polls env 0 st.calls ++ [Event.send false] ∧
      slept st.trace = List.replicate st.calls (10 * Second) ∧
      p.timeout < st.clock - now ∧
      ∀ i < st.calls, p.pollTime env 0 i ≤ p.timeout := by
  obtain ⟨ht, h1, h2, h3⟩ := probe_constants p hp
  obtain ⟨st, hst, huniq⟩ := probe_final_state p hp env now
  have hnever : ∀ i, p.isTarget (env.resp i) = false := by
    intro i
    obtain ⟨msg, hmsg⟩ := herr i
    rw [hmsg]
    rfl
  obtain ⟨j, _, hwithin, hend⟩ := Probe.run_spec p env now 38 st (hst 38 (Nat.le_refl 38))
  have hsec : 10 * Second = 10000000000 := by decide
  have hsl : ∀ c n, slept (p.polls env c n) = List.replicate n (10 * Second) := by
    intro c n
    induction n generalizing c with
    | zero => rfl
    | succ n ih =>
      obtain ⟨msg, hmsg⟩ := herr c
      simp [Probe.polls, slept, ih, hmsg, Probe.sleepAfter, h1, hsec, List.replicate_succ]
  rcases hend with ⟨hover, hshape⟩ | ⟨_, ht', _⟩
  · have hcalls : st.calls = j := by rw [hshape]
    refine ⟨st, hst, huniq, ?_, ?_, ?_, ?_, ?_, ?_⟩
    · rw [hshape]
      simp [sent_append, Probe.sent_polls, sent]
    · rw [hcalls]
      cases j with
      | zero => simp [Probe.pollTime] at hover
      | succ j => omega
    · rw [hcalls, hshape]
    · rw [hshape]
      simp [slept_append, hsl, slept]
    · rw [hshape]
      simp only
      omega
    · rw [hcalls]
      exact hwithin
  · rw [hnever] at ht'
    exact absurd ht' (by simp)

/-- The instance of C16 for `ProbeDiskCreation` and the accessor that always
answers "permission denied". -/
theorem probe_all_errors_witness :
    (ProbeDiskCreation = ProbeVmRunning ∨ ProbeDiskCreation = ProbeVmStopped ∨
      ProbeDiskCreation = ProbeDiskCreation) ∧
    (∀ i, ∃ msg, alwaysError.resp i = Response.err msg) ∧
    (∃ st, (∀ fuel, 38 ≤ fuel → ProbeDiskCreation.run alwaysError 0 fuel = some st) ∧
      (∀ fuel st', ProbeDiskCreation.run alwaysError 0 fuel = some st' → st' = st) ∧
      sent st.trace = [false] ∧ 1 ≤ st.calls ∧
      st.trace = ProbeDiskCreation.polls alwaysError 0 st.calls ++ [Event.send false] ∧
      slept st.trace = List.replicate st.calls (10 * Second) ∧
      ProbeDiskCreation.timeout < st.clock - 0 ∧
      ∀ i < st.calls, ProbeDiskCreation.pollTime alwaysError 0 i ≤
        ProbeDiskCreation.timeout) ∧
    (ProbeDiskCreation.run alwaysError 0 38).map (fun st => (st.calls, st.clock)) =
      some (19, 190 * Second) :=
  ⟨Or.inr (Or.inr rfl), fun _ => ⟨_, rfl⟩,
    probe_all_errors ProbeDiskCreation (Or.inr (Or.inr rfl)) alwaysError
      (fun _ => ⟨_, rfl⟩) 0,
    by decide⟩

/-- The case against C17 as stated: `ProbeDiskCreation` sleeps 10 s after an
accessor error and 5 s after a disk that is not `READY`. -/
theorem disk_probe_two_sleep_durations :
    (ProbeDiskCreation.run (firstThen (Response.err "not found".toList) "READY".toList)
      0 2).map (fun st => slept st.trace) = some [10 * Second] ∧
    (ProbeDiskCreation.run (firstThen (Response.ok "CREATING".toList) "READY".toList)
      0 2).map (fun st => slept st.trace) = some [5 * Second] ∧
    10 * Second ≠ 5 * Second :=
  ⟨by decide, by decide, by decide⟩

/-- C17, amended: in every completed run of a probe, sleep number `i + 1` follows
accessor call number `i + 1`, which did not return the target; it lasts 10 s
after an accessor error; after a resource in another state it lasts 10 s for
`ProbeVmRunning` and `ProbeVmStopped` and 5 s for `ProbeDiskCreation`. -/
theorem probe_sleep_durations (p : Probe)
    (hp : p = ProbeVmRunning ∨ p = ProbeVmStopped ∨ p = ProbeDiskCreation)
    (env : ProbeEnv) (now fuel : Nat) (st : ProbeState)
    (h : p.run env now fuel = some st) :
    ∀ i d, (slept st.trace)[i]? = some d →
      ((∃ msg, env.resp i = Response.err msg) ∧ d = 10 * Second) ∨
      ((∃ status, env.resp i = Response.ok status ∧ status ≠ p.target) ∧
        ((p = ProbeVmRunning ∨ p = ProbeVmStopped) ∧ d = 10 * Second ∨
          p = ProbeDiskCreation ∧ d = 5 * Second)) := by
  intro i d hd
  have hE : ∀ msg, p.sleepAfter (Response.err msg) = 10 * Second := by
    intro msg
    show p.sleepOnErr = 10 * Second
    rcases hp with rfl | rfl | rfl <;> rfl
  have hS : ∀ status, (p = ProbeVmRunning ∨ p = ProbeVmStopped) ∧
      p.sleepAfter (Response.ok status) = 10 * Second ∨
      p = ProbeDiskCreation ∧ p.sleepAfter (Response.ok status) = 5 * Second := by
    intro status
    show (p = ProbeVmRunning ∨ p = ProbeVmStopped) ∧ p.sleepOnStatus = 10 * Second ∨
      p = ProbeDiskCreation ∧ p.sleepOnStatus = 5 * Second
    rcases hp with rfl | rfl | rfl
    · exact Or.inl ⟨Or.inl rfl, rfl⟩
    · exact Or.inl ⟨Or.inr rfl, rfl⟩
    · exact Or.inr ⟨rfl, rfl⟩
  obtain ⟨j, hnot, _, hend⟩ := Probe.run_spec p env now fuel st h
  have hs : slept st.trace = (List.range j).map (fun i => p.sleepAfter (env.resp (0 + i))) := by
    rcases hend with ⟨_, hst⟩ | ⟨_, _, hst⟩ <;>
      simp [hst, slept_append, Probe.slept_polls, slept]
  rw [hs, List.getElem?_map] at hd
  have hij : i < j := by
    by_contra hge
    rw [List.getElem?_eq_none (by simpa using hge)] at hd
    simp at hd
  rw [List.getElem?_range hij] at hd
  simp only [Option.map_some', Option.some.injEq, Nat.zero_add] at hd
  have hnt := hnot i hij
  cases hr : env.resp i with
  | err msg =>
    left
    refine ⟨⟨msg, rfl⟩, ?_⟩
    rw [hr] at hd
    rw [← hd]
    exact hE msg
  | ok status =>
    right
    rw [hr] at hd hnt
    refine ⟨⟨status, rfl, ?_⟩, ?_⟩
    · intro he
      rw [he] at hnt
      simp [Probe.isTarget] at hnt
    · rw [← hd]
      exact hS status

/-- An instance of C17: `ProbeDiskCreation` on a disk that is `CREATING`, then
`READY`: its one sleep lasts 5 s. -/
theorem probe_sleep_durations_witness :
    (ProbeDiskCreation = ProbeVmRunning ∨ ProbeDiskCreation = ProbeVmStopped ∨
      ProbeDiskCreation = ProbeDiskCreation) ∧
    ProbeDiskCreation.run (firstThen (Response.ok "CREATING".toList) "READY".toList) 0 2 =
      some ⟨5000000000, 2,
        [Event.get 0, Event.sleep 5000000000, Event.get 1, Event.send true]⟩ ∧
    ∀ i d, (slept [Event.get 0, Event.sleep 5000000000, Event.get 1,
        Event.send true])[i]? = some d →
      ((∃ msg, (firstThen (Response.ok "CREATING".toList) "READY".toList).resp i =
          Response.err msg) ∧ d = 10 * Second) ∨
      ((∃ status, (firstThen (Response.ok "CREATING".toList) "READY".toList).resp i =
          Response.ok status ∧ status ≠ ProbeDiskCreation.target) ∧
        ((ProbeDiskCreation = ProbeVmRunning ∨ ProbeDiskCreation = ProbeVmStopped) ∧
            d = 10 * Second ∨
          ProbeDiskCreation = ProbeDiskCreation ∧ d = 5 * Second)) :=
  ⟨Or.inr (Or.inr rfl), by decide,
    probe_sleep_durations ProbeDiskCreation (Or.inr (Or.inr rfl))
      (firstThen (Response.ok "CREATING".toList) "READY".toList) 0 2
      ⟨5000000000, 2, [Event.get 0, Event.sleep 5000000000, Event.get 1, Event.send true]⟩
      (by decide)⟩

/-! ## Create and transition operations -/

/-- A completed run of a probe sent `true` or sent `false`, once. -/
theorem Probe.sent_run (p : Probe) (env : ProbeEnv) (now fuel : Nat) (st : ProbeState)
    (h : p.run env now fuel = some st) :
    sent st.trace = [true] ∨ sent st.trace = [false] := by
  obtain ⟨j, _, _, hend⟩ := Probe.run_spec p env now fuel st h
  rcases hend with ⟨_, hst⟩ | ⟨_, _, hst⟩
  · right
    rw [hst]
    simp [sent_append, Probe.sent_polls, sent]
  · left
    rw [hst]
    simp [sent_append, Probe.sent_polls, sent]

/-- A probe makes no insert request. -/
theorem Probe.insert_not_mem_trace (p : Probe) (env : ProbeEnv) (now fuel : Nat)
    (st : ProbeState) (h : p.run env now fuel = some st) : Event.insert ∉ st.trace := by
  obtain ⟨j, _, _, hend⟩ := Probe.run_spec p env now fuel st h
  have hpolls : Event.insert ∉ p.polls env 0 j := by
    intro hmem
    rcases Probe.mem_polls p env 0 j _ hmem with ⟨i, hi⟩ | ⟨d, hd⟩
    · exact Event.noConfusion hi
    · exact Event.noConfusion hd
  rcases hend with ⟨_, hst⟩ | ⟨_, _, hst⟩
  · rw [hst]
    simp [hpolls]
  · rw [hst]
    simp [hpolls]

theorem NewVm_of_run (env : ProbeEnv) (now fuel : Nat) (vmName : GoString) (st : ProbeState)
    (h : ProbeVmRunning.run env now fuel = some st) :
    (sent st.trace = [true] ∧
        NewVm none env now fuel vmName = some (none, Event.insert :: st.trace)) ∨
      (sent st.trace = [false] ∧
        NewVm none env now fuel vmName =
          some (some (gceError (newVmTimeoutMessage vmName)), Event.insert :: st.trace)) := by
  rcases Probe.sent_run _ env now fuel st h with hs | hs
  · left
    refine ⟨hs, ?_⟩
    unfold NewVm
    simp only [h, hs]
    rfl
  · right
    refine ⟨hs, ?_⟩
    unfold NewVm
    simp only [h, hs]
    rfl

theorem NewDisk_of_run (env : ProbeEnv) (now fuel : Nat) (name : GoString) (st : ProbeState)
    (h : ProbeDiskCreation.run env now fuel = some st) :
    (sent st.trace = [true] ∧
        NewDisk none env now fuel name = some (none, Event.insert :: st.trace)) ∨
      (sent st.trace = [false] ∧
        NewDisk none env now fuel name =
          some (some ("NewDisk timeout: disk[".toList ++ name ++ "]".toList),
            Event.insert :: st.trace)) := by
  rcases Probe.sent_run _ env now fuel st h with hs | hs
  · left
    refine ⟨hs, ?_⟩
    unfold NewDisk
    simp only [h, hs]
    rfl
  · right
    refine ⟨hs, ?_⟩
    unfold NewDisk
    simp only [h, hs]
    rfl

theorem NewVm_none_of_run_none (env : ProbeEnv) (now fuel : Nat) (vmName : GoString)
    (h : ProbeVmRunning.run env now fuel = none) :
    NewVm none env now fuel vmName = none := by
  unfold NewVm
  simp only [h]

theorem NewDisk_none_of_run_none (env : ProbeEnv) (now fuel : Nat) (name : GoString)
    (h : ProbeDiskCreation.run env now fuel = none) :
    NewDisk none env now fuel name = none := by
  unfold NewDisk
  simp only [h]

/-- C18: when the insert request fails, `NewVm` and `NewDisk` return a non-nil
error and their call log is the one insert request, with no accessor call; and
in every run the log starts with the insert request, which is not issued again,
so that every accessor call comes after it. -/
theorem create_insert_once_and_first (env : ProbeEnv) (now fuel : Nat) (name : GoString) :
    (∀ err, NewVm (some err) env now fuel name = some (some (gceError err), [Event.insert])) ∧
    (∀ err, NewDisk (some err) env now fuel name =
      some (some (gceError err), [Event.insert])) ∧
    (∀ insertErr r, NewVm insertErr env now fuel name = some r →
      ∃ rest, r.2 = Event.insert :: rest ∧ Event.insert ∉ rest) ∧
    (∀ insertErr r, NewDisk insertErr env now fuel name = some r →
      ∃ rest, r.2 = Event.insert :: rest ∧ Event.insert ∉ rest) := by
  refine ⟨fun err => rfl, fun err => rfl, ?_, ?_⟩
  · intro insertErr r hr
    cases insertErr with
    | some err =>
      have : r = (some (gceError err), [Event.insert]) := (Option.some.inj hr).symm
      rw [this]
      exact ⟨[], rfl, by simp⟩
    | none =>
      cases hrun : ProbeVmRunning.run env now fuel with
      | none =>
        rw [NewVm_none_of_run_none env now fuel name hrun] at hr
        exact absurd hr (by simp)
      | some st =>
        have hno := Probe.insert_not_mem_trace _ env now fuel st hrun
        rcases NewVm_of_run env now fuel name st hrun with ⟨_, h2⟩ | ⟨_, h2⟩
        · rw [h2] at hr
          rw [← Option.some.inj hr]
          exact ⟨st.trace, rfl, hno⟩
        · rw [h2] at hr
          rw [← Option.some.inj hr]
          exact ⟨st.trace, rfl, hno⟩
  · intro insertErr r hr
    cases insertErr with
    | some err =>
      have : r = (some (gceError err), [Event.insert]) := (Option.some.inj hr).symm
      rw [this]
      exact ⟨[], rfl, by simp⟩
    | none =>
      cases hrun : ProbeDiskCreation.run env now fuel with
      | none =>
        rw [NewDisk_none_of_run_none env now fuel name hrun] at hr
        exact absurd hr (by simp)
      | some st =>
        have hno := Probe.insert_not_mem_trace _ env now fuel st hrun
        rcases NewDisk_of_run env now fuel name st hrun with ⟨_, h2⟩ | ⟨_, h2⟩
        · rw [h2] at hr
          rw [← Option.some.inj hr]
          exact ⟨st.trace, rfl, hno⟩
        · rw [h2] at hr
          rw [← Option.some.inj hr]
          exact ⟨st.trace, rfl, hno⟩

/-- C19: when the insert request succeeds and the probe completes, `NewVm` and
`NewDisk` return nil exactly when the probe sent `true`, and return a non-nil
error, the timeout error, exactly when the probe sent `false`. -/
theorem create_result_follows_probe (env envD : ProbeEnv) (now fuel nowD fuelD : Nat)
    (vmName name : GoString) (vmSt diskSt : ProbeState)
    (hvm : ProbeVmRunning.run env now fuel = some vmSt)
    (hdisk : ProbeDiskCreation.run envD nowD fuelD = some diskSt) :
    (((NewVm none env now fuel vmName).map Prod.fst = some none ↔
        sent vmSt.trace = [true]) ∧
      ((∃ e, (NewVm none env now fuel vmName).map Prod.fst = some (some e)) ↔
        sent vmSt.trace = [false]) ∧
      (sent vmSt.trace = [false] → (NewVm none env now fuel vmName).map Prod.fst =
        some (some (gceError (newVmTimeoutMessage vmName))))) ∧
    (((NewDisk none envD nowD fuelD name).map Prod.fst = some none ↔
        sent diskSt.trace = [true]) ∧
      ((∃ e, (NewDisk none envD nowD fuelD name).map Prod.fst = some (some e)) ↔
        sent diskSt.trace = [false]) ∧
      (sent diskSt.trace = [false] → (NewDisk none envD nowD fuelD name).map Prod.fst =
        some (some ("NewDisk timeout: disk[".toList ++ name ++ "]".toList)))) := by
  constructor
  · rcases NewVm_of_run env now fuel vmName vmSt hvm with ⟨hs, h2⟩ | ⟨hs, h2⟩
    · rw [h2, hs]
      simp
    · rw [h2, hs]
      simp
  · rcases NewDisk_of_run envD nowD fuelD name diskSt hdisk with ⟨hs, h2⟩ | ⟨hs, h2⟩
    · rw [h2, hs]
      simp
    · rw [h2, hs]
      simp

/-- Instances of C19: a VM that is "not found" twice and then `RUNNING`, a disk
that is `CREATING` and then `READY`; and the results of `NewVm` and `NewDisk` on
a resource that stays `PENDING`. -/
theorem create_result_follows_probe_witness :
    (ProbeVmRunning.run (notFoundTwice "RUNNING".toList) 0 20 =
        some ⟨20000000000, 3,
          [Event.get 0, Event.sleep 10000000000, Event.get 1, Event.sleep 10000000000,
            Event.get 2, Event.send true]⟩ ∧
      ProbeDiskCreation.run (firstThen (Response.ok "CREATING".toList) "READY".toList) 0 2 =
        some ⟨5000000000, 2,
          [Event.get 0, Event.sleep 5000000000, Event.get 1, Event.send true]⟩) ∧
    ((((NewVm none (notFoundTwice "RUNNING".toList) 0 20 "vm1".toList).map Prod.fst =
          some none ↔
        sent [Event.get 0, Event.sleep 10000000000, Event.get 1, Event.sleep 10000000000,
            Event.get 2, Event.send true] = [true]) ∧
      ((∃ e, (NewVm none (notFoundTwice "RUNNING".toList) 0 20 "vm1".toList).map Prod.fst =
          some (some e)) ↔
        sent [Event.get 0, Event.sleep 10000000000, Event.get 1, Event.sleep 10000000000,
            Event.get 2, Event.send true] = [false]) ∧
      (sent [Event.get 0, Event.sleep 10000000000, Event.get 1, Event.sleep 10000000000,
            Event.get 2, Event.send true] = [false] →
        (NewVm none (notFoundTwice "RUNNING".toList) 0 20 "vm1".toList).map Prod.fst =
          some (some (gceError (newVmTimeoutMessage "vm1".toList))))) ∧
    (((NewDisk none (firstThen (Response.ok "CREATING".toList) "READY".toList) 0 2
          "disk1".toList).map Prod.fst = some none ↔
        sent [Event.get 0, Event.sleep 5000000000, Event.get 1, Event.send true] = [true]) ∧
      ((∃ e, (NewDisk none (firstThen (Response.ok "CREATING".toList) "READY".toList) 0 2
          "disk1".toList).map Prod.fst = some (some e)) ↔
        sent [Event.get 0, Event.sleep 5000000000, Event.get 1, Event.send true] = [false]) ∧
      (sent [Event.get 0, Event.sleep 5000000000, Event.get 1, Event.send true] = [false] →
        (NewDisk none (firstThen (Response.ok "CREATING".toList) "READY".toList) 0 2
          "disk1".toList).map Prod.fst =
          some (some ("NewDisk timeout: disk[".toList ++ "disk1".toList ++ "]".toList))))) ∧
    (NewVm none neverReady 0 20 "vm1".toList).map Prod.fst =
      some (some "GCE operation fails: NewVM timeout: VM[]%!(EXTRA string=vm1)".toList) ∧
    (NewDisk none neverReady 0 38 "disk1".toList).map Prod.fst =
      some (some "NewDisk timeout: disk[disk1]".toList) :=
  ⟨⟨by decide, by decide⟩,
    create_result_follows_probe (notFoundTwice "RUNNING".toList)
      (firstThen (Response.ok "CREATING".toList) "READY".toList) 0 20 0 2
      "vm1".toList "disk1".toList
      ⟨20000000000, 3,
        [Event.get 0, Event.sleep 10000000000, Event.get 1, Event.sleep 10000000000,
          Event.get 2, Event.send true]⟩
      ⟨5000000000, 2, [Event.get 0, Event.sleep 5000000000, Event.get 1, Event.send true]⟩
      (by decide) (by decide),
    by decide, by decide⟩

/-- C20: when the stop or start request fails, `StopVm` and `StartVm` return
`(nil, error)` and leave the caller's state as it was, the checker not being
invoked; when the request succeeds, the state afterwards is that of one
invocation of the checker on the same `projectId`, `zone` and `vmName`.  For a
checker that records its calls: no call in the first case, exactly that one call
in the second. -/
theorem transition_invokes_checker (projectId zone vmName : GoString)
    (vcc : VmConditionChecker σ) (s : σ) (pass : Bool) (answer : Option GoString)
    (calls : List (GoString × GoString × GoString)) :
    (∀ err, StopVm (Except.error err) projectId zone vmName vcc s =
      ((none, some (gceError err)), s)) ∧
    (∀ err, StartVm (Except.error err) projectId zone vmName vcc s =
      ((none, some (gceError err)), s)) ∧
    (∀ op, (StopVm (Except.ok op) projectId zone vmName vcc s).2 =
      (vcc projectId zone vmName s).2) ∧
    (∀ op, (StartVm (Except.ok op) projectId zone vmName vcc s).2 =
      (vcc projectId zone vmName s).2) ∧
    (∀ err, (StopVm (Except.error err) projectId zone vmName
      (recordingChecker pass answer) calls).2 = calls) ∧
    (∀ err, (StartVm (Except.error err) projectId zone vmName
      (recordingChecker pass answer) calls).2 = calls) ∧
    (∀ op, (StopVm (Except.ok op) projectId zone vmName
      (recordingChecker pass answer) calls).2 = calls ++ [(projectId, zone, vmName)]) ∧
    (∀ op, (StartVm (Except.ok op) projectId zone vmName
      (recordingChecker pass answer) calls).2 = calls ++ [(projectId, zone, vmName)]) := by
  refine ⟨fun _ => rfl, fun _ => rfl, ?_, ?_, fun _ => rfl, fun _ => rfl, ?_, ?_⟩
  · intro op
    unfold StopVm
    simp only
    split <;> rfl
  · intro op
    unfold StartVm
    simp only
    split <;> rfl
  · intro op
    unfold StopVm
    simp only
    split <;> rfl
  · intro op
    unfold StartVm
    simp only
    split <;> rfl

/-! ## Splitting and joining -/

theorem Index_eq_none_iff (s sep : GoString) : Index s sep = none ↔ ¬ sep <:+: s := by
  induction s with
  | nil =>
    unfold Index
    by_cases h : sep = []
    · simp [h]
    · simp [h, List.infix_nil]
  | cons c cs ih =>
    unfold Index
    by_cases h : startsWith (c :: cs) sep = true
    · have hp := (startsWith_iff _ _).mp h
      simp only [h, if_true]
      constructor
      · intro h0
        exact absurd h0 (by simp)
      · intro h0
        exact absurd hp.isInfix h0
    · have hp : ¬ sep <+: c :: cs := fun hp => h ((startsWith_iff _ _).mpr hp)
      simp only [h, Bool.false_eq_true, if_false, Option.map_eq_none', ih,
        List.infix_cons_iff, not_or]
      exact ⟨fun h0 => ⟨hp, h0⟩, fun h0 => h0.2⟩

/-- The first occurrence: `s` is the part before it, `sep`, and the part after it,
and the part before it does not contain `sep`. -/
theorem Index_eq_some (s sep : GoString) (hsep : sep ≠ []) (m : Nat)
    (h : Index s sep = some m) :
    s.take m ++ sep ++ s.drop (m + sep.length) = s ∧ ¬ sep <:+: s.take m := by
  induction s generalizing m with
  | nil =>
    unfold Index at h
    simp [hsep] at h
  | cons c cs ih =>
    unfold Index at h
    by_cases hs : startsWith (c :: cs) sep = true
    · simp only [hs, if_true, Option.some.injEq] at h
      subst h
      obtain ⟨t, ht⟩ := (startsWith_iff _ _).mp hs
      refine ⟨?_, ?_⟩
      · simp only [List.take_zero, List.nil_append, Nat.zero_add]
        rw [← ht]
        simp
      · simp only [List.take_zero, List.infix_nil]
        exact hsep
    · simp only [hs, Bool.false_eq_true, if_false, Option.map_eq_some'] at h
      obtain ⟨m', hm', rfl⟩ := h
      obtain ⟨h1, h2⟩ := ih m' hm'
      refine ⟨?_, ?_⟩
      · have e : m' + 1 + sep.length = (m' + sep.length) + 1 := by omega
        rw [e]
        simp only [List.take_succ_cons, List.drop_succ_cons, List.cons_append]
        rw [h1]
      · simp only [List.take_succ_cons, List.infix_cons_iff, not_or]
        refine ⟨?_, h2⟩
        intro hp
        apply hs
        rw [startsWith_iff]
        exact hp.trans ((List.prefix_cons_inj c).mpr (List.take_prefix m' cs))

theorem genSplit_of_absent (sep : GoString) (n : Nat) (s : GoString)
    (h : ¬ sep <:+: s) : genSplit sep n s = [s] := by
  cases n with
  | zero => rfl
  | succ n =>
    unfold genSplit
    rw [(Index_eq_none_iff s sep).mpr h]

theorem Join_cons_cons (a b : GoString) (rest : List GoString) (sep : GoString) :
    Join (a :: b :: rest) sep = a ++ sep ++ Join (b :: rest) sep := rfl

theorem Join_cons_of_ne_nil (a : GoString) (l : List GoString) (sep : GoString)
    (hl : l ≠ []) : Join (a :: l) sep = a ++ sep ++ Join l sep := by
  cases l with
  | nil => exact absurd rfl hl
  | cons b rest => rfl

/-- The pieces of a split by a non-empty separator: there is at least one, none
contains the separator, and joined by the separator they give the string back. -/
theorem genSplit_spec (sep : GoString) (hsep : sep ≠ []) (n : Nat) (s : GoString)
    (hn : s.length ≤ n) :
    genSplit sep n s ≠ [] ∧ Join (genSplit sep n s) sep = s ∧
      ∀ piece ∈ genSplit sep n s, ¬ sep <:+: piece := by
  induction n generalizing s with
  | zero =>
    have hs : s = [] := List.length_eq_zero.mp (Nat.le_zero.mp hn)
    subst hs
    refine ⟨by simp [genSplit], rfl, ?_⟩
    intro piece hp
    simp only [genSplit, List.mem_singleton] at hp
    subst hp
    simpa [List.infix_nil] using hsep
  | succ n ih =>
    cases hi : Index s sep with
    | none =>
      have hno := (Index_eq_none_iff s sep).mp hi
      rw [genSplit_of_absent sep _ s hno]
      refine ⟨by simp, rfl, ?_⟩
      intro piece hp
      simp only [List.mem_singleton] at hp
      subst hp
      exact hno
    | some m =>
      obtain ⟨h1, h2⟩ := Index_eq_some s sep hsep m hi
      have hpos : 0 < sep.length := List.length_pos.mpr hsep
      have hlen : (s.drop (m + sep.length)).length ≤ n := by
        rw [List.length_drop]
        omega
      obtain ⟨i1, i2, i3⟩ := ih (s.drop (m + sep.length)) hlen
      have hstep : genSplit sep (n + 1) s =
          s.take m :: genSplit sep n (s.drop (m + sep.length)) := by
        conv_lhs => unfold genSplit
        rw [hi]
      rw [hstep]
      refine ⟨by simp, ?_, ?_⟩
      · rw [Join_cons_of_ne_nil _ _ _ i1, i2, h1]
      · intro piece hp
        rcases List.mem_cons.mp hp with hp | hp
        · subst hp
          exact h2
        · exact i3 piece hp

/-- The same for `Split`. -/
theorem Split_spec (s sep : GoString) (hsep : sep ≠ []) :
    Split s sep ≠ [] ∧ Join (Split s sep) sep = s ∧
      ∀ piece ∈ Split s sep, ¬ sep <:+: piece := by
  unfold Split
  rw [if_neg hsep]
  exact genSplit_spec sep hsep s.length s (Nat.le_refl _)

theorem Split_of_absent (s sep : GoString) (hsep : sep ≠ []) (h : ¬ sep <:+: s) :
    Split s sep = [s] := by
  unfold Split
  rw [if_neg hsep]
  exact genSplit_of_absent sep _ s h

theorem Join_append_singleton (init : List GoString) (last sep : GoString)
    (hinit : init ≠ []) :
    Join (init ++ [last]) sep = Join init sep ++ sep ++ last := by
  induction init with
  | nil => exact absurd rfl hinit
  | cons a rest ih =>
    cases rest with
    | nil => rfl
    | cons b rest =>
      have h := ih (by simp)
      simp only [List.cons_append] at h ⊢
      rw [Join_cons_cons, h, Join_cons_cons]
      simp [List.append_assoc]

/-- The last element of a non-empty list, as Go indexes it. -/
theorem getElem?_length_sub_one (init : List α) (last : α) :
    (init ++ [last])[(init ++ [last]).length - 1]? = some last := by
  simp

/-- A split by a non-empty separator, seen from its last piece. -/
theorem Split_last (s sep : GoString) (hsep : sep ≠ []) :
    ∃ init last, Split s sep = init ++ [last] ∧ ¬ sep <:+: last ∧
      (∀ piece ∈ init, ¬ sep <:+: piece) ∧
      ((init = [] ∧ s = last) ∨ (init ≠ [] ∧ s = Join init sep ++ sep ++ last)) := by
  obtain ⟨h1, h2, h3⟩ := Split_spec s sep hsep
  rcases List.eq_nil_or_concat (Split s sep) with h | ⟨init, last, h⟩
  · exact absurd h h1
  · have h' : Split s sep = init ++ [last] := by simpa using h
    refine ⟨init, last, h', h3 last (by rw [h']; simp), ?_, ?_⟩
    · intro piece hp
      exact h3 piece (by rw [h']; simp [hp])
    · rw [h'] at h2
      by_cases hi : init = []
      · subst hi
        exact Or.inl ⟨rfl, h2.symm⟩
      · rw [Join_append_singleton init last sep hi] at h2
        exact Or.inr ⟨hi, h2.symm⟩

theorem singleton_infix_iff (c : Char) (l : GoString) : [c] <:+: l ↔ c ∈ l := by
  constructor
  · rintro ⟨a, b, h⟩
    rw [← h]
    simp
  · intro h
    obtain ⟨a, b, hab⟩ := List.append_of_mem h
    exact ⟨a, b, by rw [hab]; simp⟩

/-- What `GetLastSplit` returns for a non-empty separator: a suffix of `src` without
the separator; `src` itself when the separator does not occur, and otherwise the
part of `src` after one of its occurrences. -/
theorem GetLastSplit_spec (src sep : GoString) (hsep : sep ≠ []) :
    ∃ r, GetLastSplit src sep = some r ∧ ¬ sep <:+: r ∧ r <:+ src ∧
      (¬ sep <:+: src → r = src) ∧ (sep <:+: src → ∃ pre, src = pre ++ sep ++ r) := by
  obtain ⟨init, last, hsplit, hlast, _, hshape⟩ := Split_last src sep hsep
  refine ⟨last, ?_, hlast, ?_, ?_, ?_⟩
  · unfold GetLastSplit
    simp only [hsplit]
    exact getElem?_length_sub_one init last
  · rcases hshape with ⟨_, h⟩ | ⟨_, h⟩
    · rw [h]
    · exact ⟨Join init sep ++ sep, h.symm⟩
  · intro hno
    rcases hshape with ⟨_, h⟩ | ⟨_, h⟩
    · exact h.symm
    · exact absurd ⟨Join init sep, last, h.symm⟩ hno
  · intro hin
    rcases hshape with ⟨_, h⟩ | ⟨_, h⟩
    · rw [h] at hin
      exact absurd hin hlast
    · exact ⟨Join init sep, h⟩

/-- For a separator of one character, the part after an occurrence that does not
contain the character is the part after the last occurrence. -/
theorem isAfterLastOccurrence_char (src pre r : GoString) (c : Char)
    (h : src = pre ++ [c] ++ r) (hr : c ∉ r) : IsAfterLastOccurrence src [c] r := by
  refine ⟨⟨pre, h⟩, ?_⟩
  intro pre' suf' h'
  by_contra hlt
  have hlen : ([c] ++ suf').length ≤ r.length := by
    simp only [List.length_append, List.length_singleton]
    omega
  have hs1 : ([c] ++ suf') <:+ src := ⟨pre', by rw [h']; simp⟩
  have hs2 : r <:+ src := ⟨pre ++ [c], h.symm⟩
  obtain ⟨t, ht⟩ := List.suffix_of_suffix_length_le hs1 hs2 hlen
  apply hr
  rw [← ht]
  simp

/-! ## The claims on the string helpers -/

/-- C22: `GetSnapshotOfDisk` returns the part of `SourceSnapshot` after its last
"/", and the whole of it when it has no "/": the result has no "/" and
`SourceSnapshot` ends with it; `global/snapshots/snapshot-test` gives
`snapshot-test`. -/
theorem GetSnapshotOfDisk_after_last_slash (disk : Disk) :
    (∃ r, GetSnapshotOfDisk disk = some r ∧ '/' ∉ r ∧ r <:+ disk.SourceSnapshot ∧
      ('/' ∉ disk.SourceSnapshot → r = disk.SourceSnapshot) ∧
      ('/' ∈ disk.SourceSnapshot → IsAfterLastOccurrence disk.SourceSnapshot ['/'] r)) ∧
    GetSnapshotOfDisk ⟨"disk-test".toList, "global/snapshots/snapshot-test".toList⟩ =
      some "snapshot-test".toList := by
  refine ⟨?_, by decide⟩
  obtain ⟨r, h1, h2, h3, h4, h5⟩ := GetLastSplit_spec disk.SourceSnapshot ['/'] (by simp)
  rw [singleton_infix_iff] at h2 h4 h5
  refine ⟨r, h1, h2, h3, h4, ?_⟩
  intro hin
  obtain ⟨pre, hpre⟩ := h5 hin
  exact isAfterLastOccurrence_char _ pre r '/' hpre h2

/-- No occurrence of `sep` starts to the left of the one `Index` finds. -/
theorem Index_first (s sep : GoString) (m : Nat) (h : Index s sep = some m)
    (pre' suf' : GoString) (hs : s = pre' ++ sep ++ suf') : m ≤ pre'.length := by
  induction s generalizing m pre' with
  | nil =>
    have hp : pre' = [] := by
      have := congrArg List.length hs
      simp only [List.length_nil, List.length_append] at this
      exact List.length_eq_zero.mp (by omega)
    have hsep : sep = [] := by
      have := congrArg List.length hs
      simp only [List.length_nil, List.length_append] at this
      exact List.length_eq_zero.mp (by omega)
    unfold Index at h
    simp only [hsep, if_true, Option.some.injEq] at h
    omega
  | cons c cs ih =>
    unfold Index at h
    by_cases hst : startsWith (c :: cs) sep = true
    · simp only [hst, if_true, Option.some.injEq] at h
      omega
    · simp only [hst, Bool.false_eq_true, if_false, Option.map_eq_some'] at h
      obtain ⟨m', hm', rfl⟩ := h
      cases pre' with
      | nil =>
        exfalso
        apply hst
        rw [startsWith_iff]
        exact ⟨suf', by rw [hs]; simp⟩
      | cons x xs =>
        simp only [List.cons_append, List.cons.injEq] at hs
        have := ih m' hm' xs hs.2
        simp only [List.length_cons]
        omega

/-- The last piece of a split is the suffix after the last cut. -/
theorem genSplit_afterLastCut (sep : GoString) (hsep : sep ≠ []) (n : Nat) (s : GoString)
    (hn : s.length ≤ n) :
    ∃ init last, genSplit sep n s = init ++ [last] ∧ AfterLastCut sep s last := by
  induction n generalizing s with
  | zero =>
    have hs : s = [] := List.length_eq_zero.mp (Nat.le_zero.mp hn)
    subst hs
    exact ⟨[], [], rfl, AfterLastCut.absent [] (by simpa [List.infix_nil] using hsep)⟩
  | succ n ih =>
    cases hi : Index s sep with
    | none =>
      have hno := (Index_eq_none_iff s sep).mp hi
      exact ⟨[], s, by rw [genSplit_of_absent sep _ s hno]; rfl, AfterLastCut.absent s hno⟩
    | some m =>
      obtain ⟨h1, _⟩ := Index_eq_some s sep hsep m hi
      have hpos : 0 < sep.length := List.length_pos.mpr hsep
      have hm : m ≤ s.length := by
        have := congrArg List.length h1
        simp only [List.length_append, List.length_take, List.length_drop] at this
        omega
      have hlen : (s.drop (m + sep.length)).length ≤ n := by
        rw [List.length_drop]
        omega
      obtain ⟨init, last, hsplit, hcut⟩ := ih (s.drop (m + sep.length)) hlen
      have hstep : genSplit sep (n + 1) s =
          s.take m :: genSplit sep n (s.drop (m + sep.length)) := by
        conv_lhs => unfold genSplit
        rw [hi]
      refine ⟨s.take m :: init, last, by rw [hstep, hsplit]; rfl, ?_⟩
      refine AfterLastCut.cut s (s.take m) (s.drop (m + sep.length)) last h1.symm ?_ hcut
      intro pre' suf' hs
      have := Index_first s sep m hi pre' suf' hs
      rw [List.length_take]
      omega

/-- What `GetLastSplit` returns is the suffix after the last cut. -/
theorem GetLastSplit_afterLastCut (src sep : GoString) (hsep : sep ≠ []) :
    ∃ r, GetLastSplit src sep = some r ∧ AfterLastCut sep src r := by
  obtain ⟨init, last, hsplit, hcut⟩ :=
    genSplit_afterLastCut sep hsep src.length src (Nat.le_refl _)
  refine ⟨last, ?_, hcut⟩
  unfold GetLastSplit Split
  simp only [if_neg hsep, hsplit]
  exact getElem?_length_sub_one init last

/-- The suffix after the last cut is determined by the string and the separator. -/
theorem AfterLastCut_unique (sep : GoString) (s r r' : GoString)
    (h : AfterLastCut sep s r) (h' : AfterLastCut sep s r') : r = r' := by
  induction h generalizing r' with
  | absent s hno =>
    cases h' with
    | absent _ _ => rfl
    | cut _ pre rest _ hs _ _ => exact absurd ⟨pre, rest, hs.symm⟩ hno
  | cut s pre rest r hs hmin _ ih =>
    cases h' with
    | absent _ hno => exact absurd ⟨pre, rest, hs.symm⟩ hno
    | cut _ pre₂ rest₂ _ hs₂ hmin₂ hcut₂ =>
      have hlen : pre.length = pre₂.length :=
        Nat.le_antisymm (hmin pre₂ rest₂ hs₂) (hmin₂ pre rest hs)
      have heq : pre ++ (sep ++ rest) = pre₂ ++ (sep ++ rest₂) := by
        rw [← List.append_assoc, ← List.append_assoc, ← hs, ← hs₂]
      have hrest : rest = rest₂ :=
        List.append_cancel_left (List.append_inj heq hlen).2
      rw [← hrest] at hcut₂
      exact ih r' hcut₂

/-- The case against C23 as stated: in `aaa` the last occurrence of `aa` is
followed by the empty string, and `GetLastSplit` returns `a`. -/
theorem GetLastSplit_overlapping_separator :
    IsAfterLastOccurrence "aaa".toList "aa".toList [] ∧
    GetLastSplit "aaa".toList "aa".toList = some "a".toList ∧
    ¬ IsAfterLastOccurrence "aaa".toList "aa".toList "a".toList := by
  refine ⟨⟨⟨['a'], by decide⟩, fun _ _ _ => Nat.zero_le _⟩, by decide, ?_⟩
  intro h
  have := h.2 ['a'] [] (by decide)
  simp at this

/-- C23, amended: for a non-empty separator `GetLastSplit` returns the suffix of
`src` after the last of the cuts of the split, the occurrences of the separator
being found from left to right without overlap, and nothing else is that suffix;
it does not contain the separator; it is `src` itself when the separator does not
occur in `src`, and otherwise it follows an occurrence of the separator; for a
separator of one character it is the suffix after the last occurrence. -/
theorem GetLastSplit_returns_tail (src separator : GoString) (hsep : separator ≠ []) :
    ∃ r, GetLastSplit src separator = some r ∧ ¬ separator <:+: r ∧ r <:+ src ∧
      (¬ separator <:+: src → r = src) ∧
      (separator <:+: src → ∃ pre, src = pre ++ separator ++ r) ∧
      (∀ c, separator = [c] → c ∈ src → IsAfterLastOccurrence src separator r) ∧
      AfterLastCut separator src r ∧
      (∀ r', AfterLastCut separator src r' → r' = r) := by
  obtain ⟨r, h1, h2, h3, h4, h5⟩ := GetLastSplit_spec src separator hsep
  obtain ⟨r₂, g1, g2⟩ := GetLastSplit_afterLastCut src separator hsep
  have hr : r₂ = r := Option.some.inj (g1.symm.trans h1)
  rw [hr] at g2
  refine ⟨r, h1, h2, h3, h4, h5, ?_, g2,
    fun r' h' => AfterLastCut_unique separator src r' r h' g2⟩
  intro c hc hin
  subst hc
  rw [singleton_infix_iff] at h2 h5
  obtain ⟨pre, hpre⟩ := h5 hin
  exact isAfterLastOccurrence_char _ pre r c hpre h2

/-- The test of C23, the machine-type URL and the separator "/"; and the string
`aaa` with the separator `aa`, where the suffix after the last cut is `a` and not
the empty string. -/
theorem GetLastSplit_returns_tail_witness :
    "/".toList ≠ [] ∧
    (∃ r, GetLastSplit testedMachineTypeUrl "/".toList = some r ∧ ¬ "/".toList <:+: r ∧
      r <:+ testedMachineTypeUrl ∧
      (¬ "/".toList <:+: testedMachineTypeUrl → r = testedMachineTypeUrl) ∧
      ("/".toList <:+: testedMachineTypeUrl →
        ∃ pre, testedMachineTypeUrl = pre ++ "/".toList ++ r) ∧
      (∀ c, "/".toList = [c] → c ∈ testedMachineTypeUrl →
        IsAfterLastOccurrence testedMachineTypeUrl "/".toList r) ∧
      AfterLastCut "/".toList testedMachineTypeUrl r ∧
      (∀ r', AfterLastCut "/".toList testedMachineTypeUrl r' → r' = r)) ∧
    GetLastSplit testedMachineTypeUrl "/".toList = some "n1-highcpu-4".toList ∧
    AfterLastCut "aa".toList "aaa".toList "a".toList ∧
    ¬ AfterLastCut "aa".toList "aaa".toList [] := by
  refine ⟨by decide,
    GetLastSplit_returns_tail testedMachineTypeUrl "/".toList (by decide),
    by decide, ?_, ?_⟩
  · obtain ⟨r, h1, _, _, _, _, _, h7, _⟩ :=
      GetLastSplit_returns_tail "aaa".toList "aa".toList (by decide)
    have hr : r = "a".toList :=
      Option.some.inj (h1.symm.trans (by decide))
    rw [hr] at h7
    exact h7
  · intro hempty
    obtain ⟨r, h1, _, _, _, _, _, _, h8⟩ :=
      GetLastSplit_returns_tail "aaa".toList "aa".toList (by decide)
    have hr : r = "a".toList :=
      Option.some.inj (h1.symm.trans (by decide))
    have := h8 [] hempty
    rw [hr] at this
    exact absurd this (by decide)

/-! ## Patching the machine type -/

theorem Index_char (c : Char) (p rest : GoString) (hp : c ∉ p) :
    Index (p ++ c :: rest) [c] = some p.length := by
  induction p with
  | nil => simp [Index, startsWith]
  | cons x xs ih =>
    have hx : x ≠ c := fun e => hp (by simp [e])
    have hxs : c ∉ xs := fun e => hp (by simp [e])
    simp only [List.cons_append]
    unfold Index
    simp [startsWith, hx, ih hxs]

/-- Splitting at a character what was joined by it gives the pieces back, when no
piece holds the character. -/
theorem genSplit_Join_char (c : Char) (pieces : List GoString) (hne : pieces ≠ [])
    (hp : ∀ piece ∈ pieces, c ∉ piece) (n : Nat) (hn : (Join pieces [c]).length ≤ n) :
    genSplit [c] n (Join pieces [c]) = pieces := by
  induction pieces generalizing n with
  | nil => exact absurd rfl hne
  | cons a rest ih =>
    cases rest with
    | nil =>
      have ha : ¬ [c] <:+: a := by
        rw [singleton_infix_iff]
        exact hp a (by simp)
      exact genSplit_of_absent [c] n a ha
    | cons b rest =>
      have ha : c ∉ a := hp a (by simp)
      have hJ : Join (a :: b :: rest) [c] = a ++ c :: Join (b :: rest) [c] := by
        rw [Join_cons_cons]
        simp
      rw [hJ] at hn ⊢
      cases n with
      | zero => simp at hn
      | succ n =>
        unfold genSplit
        rw [Index_char c a _ ha]
        simp only [List.length_singleton, List.take_left']
        have hd : List.drop (a.length + 1) (a ++ c :: Join (b :: rest) [c]) =
            Join (b :: rest) [c] := by
          rw [List.drop_append]
          simp
        rw [hd, ih (by simp) (fun piece hpc => hp piece (by simp [List.mem_cons.mp hpc] ))
          n (by simp only [List.length_append, List.length_cons] at hn; omega)]

theorem Split_Join_char (c : Char) (pieces : List GoString) (hne : pieces ≠ [])
    (hp : ∀ piece ∈ pieces, c ∉ piece) : Split (Join pieces [c]) [c] = pieces := by
  unfold Split
  rw [if_neg (by simp)]
  exact genSplit_Join_char c pieces hne hp _ (Nat.le_refl _)

theorem set_last (init : List GoString) (last t : GoString) :
    (init ++ [last]).set ((init ++ [last]).length - 1) t = init ++ [t] := by
  rw [List.set_append_right _ _ (by simp)]
  simp

theorem PatchInstanceMachineType_of_split (machineType targetType : GoString)
    (init : List GoString) (last : GoString)
    (h : Split machineType "/".toList = init ++ [last]) :
    PatchInstanceMachineType machineType targetType =
      some (Join (init ++ [targetType]) "/".toList) := by
  unfold PatchInstanceMachineType
  simp only [h]
  rw [if_pos (by simp), set_last]

/-- C30: for a `targetType` without "/", `PatchInstanceMachineType` keeps
everything up to and including the last "/" of `machineType` and puts
`targetType` after it; `GetLastSplit` of the result is `targetType`, and patching
the result again with `targetType` changes nothing. -/
theorem PatchInstanceMachineType_replaces_last (machineType targetType : GoString)
    (ht : '/' ∉ targetType) :
    ∃ pre last patched,
      machineType = pre ++ last ∧ '/' ∉ last ∧ (pre = [] ∨ ∃ pre', pre = pre' ++ ['/']) ∧
      GetLastSplit machineType "/".toList = some last ∧
      PatchInstanceMachineType machineType targetType = some patched ∧
      patched = pre ++ targetType ∧
      GetLastSplit patched "/".toList = some targetType ∧
      PatchInstanceMachineType patched targetType = some patched := by
  have hsep : "/".toList = ['/'] := rfl
  obtain ⟨init, last, hsplit, hlast, hinit, hshape⟩ :=
    Split_last machineType "/".toList (by decide)
  rw [hsep, singleton_infix_iff] at hlast
  have hpieces : ∀ piece ∈ init ++ [targetType], '/' ∉ piece := by
    intro piece hp
    rcases List.mem_append.mp hp with h | h
    · have := hinit piece h
      rwa [hsep, singleton_infix_iff] at this
    · have : piece = targetType := by simpa using h
      rw [this]
      exact ht
  have hsplit2 : Split (Join (init ++ [targetType]) "/".toList) "/".toList =
      init ++ [targetType] := Split_Join_char '/' _ (by simp) hpieces
  have hpatch := PatchInstanceMachineType_of_split machineType targetType init last hsplit
  have hlastSplit : GetLastSplit machineType "/".toList = some last := by
    unfold GetLastSplit
    simp only [hsplit]
    exact getElem?_length_sub_one init last
  have hlast2 : GetLastSplit (Join (init ++ [targetType]) "/".toList) "/".toList =
      some targetType := by
    unfold GetLastSplit
    simp only [hsplit2]
    exact getElem?_length_sub_one init targetType
  have hagain := PatchInstanceMachineType_of_split (Join (init ++ [targetType]) "/".toList)
    targetType init targetType hsplit2
  rcases hshape with ⟨hnil, hm⟩ | ⟨hne, hm⟩
  · subst hnil
    exact ⟨[], last, _, hm, hlast, Or.inl rfl, hlastSplit, hpatch, rfl, hlast2, hagain⟩
  · refine ⟨Join init "/".toList ++ "/".toList, last, _, hm, hlast,
      Or.inr ⟨Join init "/".toList, rfl⟩, hlastSplit, hpatch, ?_, hlast2, hagain⟩
    exact Join_append_singleton init targetType "/".toList hne

/-- An instance of C30: the machine-type URL of the test patched to `f1-micro`. -/
theorem PatchInstanceMachineType_replaces_last_witness :
    '/' ∉ "f1-micro".toList ∧
    (∃ pre last patched,
      testedMachineTypeUrl = pre ++ last ∧ '/' ∉ last ∧
      (pre = [] ∨ ∃ pre', pre = pre' ++ ['/']) ∧
      GetLastSplit testedMachineTypeUrl "/".toList = some last ∧
      PatchInstanceMachineType testedMachineTypeUrl "f1-micro".toList = some patched ∧
      patched = pre ++ "f1-micro".toList ∧
      GetLastSplit patched "/".toList = some "f1-micro".toList ∧
      PatchInstanceMachineType patched "f1-micro".toList = some patched) ∧
    PatchInstanceMachineType testedMachineTypeUrl "f1-micro".toList =
      some ("https://www.googleapis.com/compute/v1/projects/ikalacomputeenginetest/" ++
        "zones/asia-east1-c/machineTypes/f1-micro").toList :=
  ⟨by decide,
    PatchInstanceMachineType_replaces_last testedMachineTypeUrl "f1-micro".toList
      (by decide),
    by decide⟩

/-! ## The remaining claims -/

/-- The case against C21 as stated: when the request succeeds and the checker
returns `(false, nil)`, `StopVm` and `StartVm` return a nil operation and a nil
error. -/
theorem transition_returns_nil_nil :
    (StopVm (Except.ok ⟨"op-1".toList⟩) "p".toList "z".toList "vm".toList
      (recordingChecker false none) []).1 = (none, none) ∧
    (StartVm (Except.ok ⟨"op-1".toList⟩) "p".toList "z".toList "vm".toList
      (recordingChecker false none) []).1 = (none, none) :=
  ⟨by decide, by decide⟩

/-- C21, amended: whenever the checker does not return `(false, nil)`, `StopVm`
and `StartVm` return exactly one of an operation and an error: the operation of
the request with a nil error when the request succeeds and the checker passes,
and a nil operation with a non-nil error otherwise. -/
theorem transition_returns_operation_or_error (request : Except GoString Operation)
    (projectId zone vmName : GoString) (vcc : VmConditionChecker σ) (s : σ)
    (hvcc : (vcc projectId zone vmName s).1 ≠ (false, none)) :
    ((∃ op, request = Except.ok op ∧ (vcc projectId zone vmName s).1.1 = true ∧
        (StopVm request projectId zone vmName vcc s).1 = (some op, none)) ∨
      (((∃ err, request = Except.error err) ∨ (vcc projectId zone vmName s).1.1 = false) ∧
        (StopVm request projectId zone vmName vcc s).1.1 = none ∧
        (StopVm request projectId zone vmName vcc s).1.2 ≠ none)) ∧
    ((∃ op, request = Except.ok op ∧ (vcc projectId zone vmName s).1.1 = true ∧
        (StartVm request projectId zone vmName vcc s).1 = (some op, none)) ∨
      (((∃ err, request = Except.error err) ∨ (vcc projectId zone vmName s).1.1 = false) ∧
        (StartVm request projectId zone vmName vcc s).1.1 = none ∧
        (StartVm request projectId zone vmName vcc s).1.2 ≠ none)) := by
  cases request with
  | error err =>
    exact ⟨Or.inr ⟨Or.inl ⟨err, rfl⟩, rfl, by simp [StopVm]⟩,
      Or.inr ⟨Or.inl ⟨err, rfl⟩, rfl, by simp [StartVm]⟩⟩
  | ok op =>
    cases hp : (vcc projectId zone vmName s).1.1 with
    | true =>
      exact ⟨Or.inl ⟨op, rfl, rfl, by simp [StopVm, hp]⟩,
        Or.inl ⟨op, rfl, rfl, by simp [StartVm, hp]⟩⟩
    | false =>
      have herr : (vcc projectId zone vmName s).1.2 ≠ none := by
        intro he
        exact hvcc (Prod.ext hp he)
      exact ⟨Or.inr ⟨Or.inr rfl, by simp [StopVm, hp], by simpa [StopVm, hp] using herr⟩,
        Or.inr ⟨Or.inr rfl, by simp [StartVm, hp], by simpa [StartVm, hp] using herr⟩⟩

/-- An instance of C21: a request that succeeds and a checker that answers
`(false, "VM not running")`. -/
theorem transition_returns_operation_or_error_witness :
    (recordingChecker false (some "VM not running".toList) "p".toList "z".toList
      "vm".toList []).1 ≠ (false, none) ∧
    (StopVm (Except.ok ⟨"op-1".toList⟩) "p".toList "z".toList "vm".toList
      (recordingChecker false (some "VM not running".toList)) []).1 =
      (none, some "VM not running".toList) ∧
    (((∃ op, (Except.ok ⟨"op-1".toList⟩ : Except GoString Operation) = Except.ok op ∧
        (recordingChecker false (some "VM not running".toList) "p".toList "z".toList
          "vm".toList []).1.1 = true ∧
        (StopVm (Except.ok ⟨"op-1".toList⟩) "p".toList "z".toList "vm".toList
          (recordingChecker false (some "VM not running".toList)) []).1 = (some op, none)) ∨
      (((∃ err, (Except.ok ⟨"op-1".toList⟩ : Except GoString Operation) =
            Except.error err) ∨
          (recordingChecker false (some "VM not running".toList) "p".toList "z".toList
            "vm".toList []).1.1 = false) ∧
        (StopVm (Except.ok ⟨"op-1".toList⟩) "p".toList "z".toList "vm".toList
          (recordingChecker false (some "VM not running".toList)) []).1.1 = none ∧
        (StopVm (Except.ok ⟨"op-1".toList⟩) "p".toList "z".toList "vm".toList
          (recordingChecker false (some "VM not running".toList)) []).1.2 ≠ none)) ∧
    ((∃ op, (Except.ok ⟨"op-1".toList⟩ : Except GoString Operation) = Except.ok op ∧
        (recordingChecker false (some "VM not running".toList) "p".toList "z".toList
          "vm".toList []).1.1 = true ∧
        (StartVm (Except.ok ⟨"op-1".toList⟩) "p".toList "z".toList "vm".toList
          (recordingChecker false (some "VM not running".toList)) []).1 = (some op, none)) ∨
      (((∃ err, (Except.ok ⟨"op-1".toList⟩ : Except GoString Operation) =
            Except.error err) ∨
          (recordingChecker false (some "VM not running".toList) "p".toList "z".toList
            "vm".toList []).1.1 = false) ∧
        (StartVm (Except.ok ⟨"op-1".toList⟩) "p".toList "z".toList "vm".toList
          (recordingChecker false (some "VM not running".toList)) []).1.1 = none ∧
        (StartVm (Except.ok ⟨"op-1".toList⟩) "p".toList "z".toList "vm".toList
          (recordingChecker false (some "VM not running".toList)) []).1.2 ≠ none))) :=
  ⟨by decide, by decide,
    transition_returns_operation_or_error (Except.ok ⟨"op-1".toList⟩) "p".toList
      "z".toList "vm".toList (recordingChecker false (some "VM not running".toList)) []
      (by decide)⟩

/-- C24: when the transactional Get finds an entity under the key, `PutUnique`
returns the error "Unique condition violation", its requests are the new
transaction and the Get, with no Put and no Commit, and the store is unchanged. -/
theorem PutUnique_existing_key (ds : Datastore ε) (key : Key) (entity stored : ε)
    (htx : ds.txFails = false) (hget : ds.getFails = false)
    (hex : ds.entities key = some stored) :
    ∃ res, PutUnique ds key entity = some res ∧
      res.err = some "Unique condition violation".toList ∧
      res.log = [DsCall.newTransaction, DsCall.get key] ∧
      (∀ k e, DsCall.put k e ∉ res.log) ∧ DsCall.commit ∉ res.log ∧
      res.store.entities = ds.entities := by
  refine ⟨⟨some "Unique condition violation".toList, stored, ds,
    [DsCall.newTransaction, DsCall.get key]⟩, ?_, rfl, rfl, ?_, ?_, rfl⟩
  · unfold PutUnique
    simp [htx, hget, hex]
  · intro k e hmem
    simp at hmem
  · intro hmem
    simp at hmem

/-- The test of C24: a second Put of the key `instance-1`. -/
theorem PutUnique_existing_key_witness :
    testedDatastore.txFails = false ∧ testedDatastore.getFails = false ∧
    testedDatastore.entities instance1Key = some "instance-1-title".toList ∧
    ∃ res, PutUnique testedDatastore instance1Key "another-title".toList = some res ∧
      res.err = some "Unique condition violation".toList ∧
      res.log = [DsCall.newTransaction, DsCall.get instance1Key] ∧
      (∀ k e, DsCall.put k e ∉ res.log) ∧ DsCall.commit ∉ res.log ∧
      res.store.entities = testedDatastore.entities :=
  ⟨rfl, rfl, by decide,
    PutUnique_existing_key testedDatastore instance1Key "another-title".toList
      "instance-1-title".toList rfl rfl (by decide)⟩

/-- C25, the code at a timeout: for the VM `vm1` the error of `NewVm` reads
`NewVM timeout: VM[]` followed by the name as an extra argument, and does not
contain `VM[vm1]`; the error of `NewDisk` for the disk `disk1` reads
`NewDisk timeout: disk[disk1]`. -/
theorem NewVm_timeout_message_brackets_empty :
    (NewVm none neverReady 0 20 "vm1".toList).map Prod.fst =
      some (some "GCE operation fails: NewVM timeout: VM[]%!(EXTRA string=vm1)".toList) ∧
    Contains "GCE operation fails: NewVM timeout: VM[]%!(EXTRA string=vm1)".toList
      "VM[vm1]".toList = false ∧
    (NewDisk none neverReady 0 38 "disk1".toList).map Prod.fst =
      some (some "NewDisk timeout: disk[disk1]".toList) :=
  ⟨by decide, by decide, by decide⟩

/-- C26, the code on what the Get returns.  On a VM without a `Tags` object
`adjustTags` panics after the Get and submits no `SetTags` request (so does
`AttachTags` of `rtc-8000`).  On a VM with a `Tags` object it submits exactly one
`SetTags` request, whose tags are `newTagsGenerator` of the fetched tags and the
caller's tags, and returns the operation or the error of that request.  When the
Get fails it returns the fetch error and submits no `SetTags` request. -/
theorem adjustTags_requests (submit : Tags → Except GoString Operation)
    (projectId zone vmName : GoString) (tags : List GoString)
    (newTagsGenerator : List GoString → List GoString → List GoString) :
    adjustTags (recordingManager (Except.ok none) submit) projectId zone vmName tags
        newTagsGenerator [] = (none, [TagCall.getVm projectId zone vmName]) ∧
    AttachTags (recordingManager (Except.ok none) submit) "p".toList "z".toList
        "instance-test".toList ["rtc-8000".toList] [] =
      (none, [TagCall.getVm "p".toList "z".toList "instance-test".toList]) ∧
    (∀ vmTags,
      (adjustTags (recordingManager (Except.ok (some vmTags)) submit) projectId zone vmName
          tags newTagsGenerator []).2 =
        [TagCall.getVm projectId zone vmName,
          TagCall.setTags projectId zone vmName
            ⟨newTagsGenerator vmTags.Items tags, vmTags.Fingerprint⟩]) ∧
    (∀ vmTags op, submit ⟨newTagsGenerator vmTags.Items tags, vmTags.Fingerprint⟩ =
        Except.ok op →
      (adjustTags (recordingManager (Except.ok (some vmTags)) submit) projectId zone vmName
          tags newTagsGenerator []).1 = some (some op, none)) ∧
    (∀ vmTags err, submit ⟨newTagsGenerator vmTags.Items tags, vmTags.Fingerprint⟩ =
        Except.error err →
      (adjustTags (recordingManager (Except.ok (some vmTags)) submit) projectId zone vmName
          tags newTagsGenerator []).1 = some (none, some (gceError err))) ∧
    (∀ err,
      adjustTags (recordingManager (Except.error err) submit) projectId zone vmName tags
          newTagsGenerator [] =
        (some (none, some (gceError err)), [TagCall.getVm projectId zone vmName])) := by
  refine ⟨rfl, rfl, ?_, ?_, ?_, fun _ => rfl⟩
  · intro vmTags
    simp only [adjustTags, recordingManager]
    split <;> simp_all
  · intro vmTags op h
    simp only [adjustTags, recordingManager, h]
  · intro vmTags err h
    simp only [adjustTags, recordingManager, h]

theorem foldl_count_collect (p : α → Bool) (n : Nat) (acc l : List α) :
    l.foldl (fun (r : Nat × List α) x => if p x then (r.1 + 1, r.2 ++ [x]) else r) (n, acc) =
      (n + (l.filter p).length, acc ++ l.filter p) := by
  induction l generalizing n acc with
  | nil => simp
  | cons x xs ih =>
    rw [List.foldl_cons]
    by_cases h : p x = true
    · simp only [h, if_true, ih, List.filter_cons, List.length_cons, List.append_assoc,
        List.singleton_append]
      congr 1
      omega
    · simp only [h, Bool.false_eq_true, if_false, ih, List.filter_cons]

/-- C27: `GetQualifiedItems` returns the items of `src` whose `IsQualified` is true,
in their order in `src`, and their number. -/
theorem GetQualifiedItems_filters (isQualified : α → π → Bool) (src : List α)
    (params : π) :
    (GetQualifiedItems isQualified src params).2 =
      src.filter (fun item => isQualified item params) ∧
    (GetQualifiedItems isQualified src params).1 =
      (GetQualifiedItems isQualified src params).2.length ∧
    (GetQualifiedItems isQualified src params).2.Sublist src := by
  have h : GetQualifiedItems isQualified src params =
      ((src.filter (fun item => isQualified item params)).length,
        src.filter (fun item => isQualified item params)) := by
    unfold GetQualifiedItems
    rw [foldl_count_collect (fun item => isQualified item params) 0 [] src]
    simp
  rw [h]
  exact ⟨rfl, rfl, List.filter_sublist _⟩

/-- C28: detaching tags right after attaching them gives what detaching them from
the original gives; when none of them occurs in `src`, that is `src` itself. -/
theorem detach_after_attach (src tags : List GoString) :
    detacher (attacher src tags) tags = detacher src tags ∧
    ((∀ t ∈ tags, t ∉ src) → detacher (attacher src tags) tags = src) := by
  have hnone : tags.filter (fun s => !InStringSlice tags s) = [] := by
    rw [List.filter_eq_nil_iff]
    intro t ht
    simp [(InStringSlice_iff tags t).mpr ht]
  have heq : detacher (attacher src tags) tags = detacher src tags := by
    rw [attacher_eq_append, detacher_eq_filter, detacher_eq_filter, List.filter_append, hnone,
      List.append_nil]
  refine ⟨heq, fun hdisj => ?_⟩
  rw [heq, detacher_eq_filter, List.filter_eq_self]
  intro t ht
  have hnot : ¬ t ∈ tags := fun h => hdisj t h ht
  have : InStringSlice tags t = false := by
    rw [← Bool.not_eq_true, InStringSlice_iff]
    exact hnot
  simp [this]

/-- C29: on two orders of the same snapshots `GetLatestSnapshot` fails both times,
or returns both times a snapshot, the two having the same `Name`. -/
theorem GetLatestSnapshot_order_independent (sortSort : List Snapshot → List Snapshot)
    (hsort : SortsBySnapshotName sortSort) (pfx : GoString) (l₁ l₂ : List Snapshot)
    (hperm : l₁.Perm l₂) :
    (GetLatestSnapshot sortSort pfx l₁ = (none, some "No snapshot found") ∧
      GetLatestSnapshot sortSort pfx l₂ = (none, some "No snapshot found")) ∨
    (∃ r₁ r₂, GetLatestSnapshot sortSort pfx l₁ = (some r₁, none) ∧
      GetLatestSnapshot sortSort pfx l₂ = (some r₂, none) ∧ r₁.Name = r₂.Name) := by
  by_cases hex : ∃ s ∈ l₁, pfx <:+: s.Name
  · right
    have hex2 : ∃ s ∈ l₂, pfx <:+: s.Name := by
      obtain ⟨s, hs, hp⟩ := hex
      exact ⟨s, hperm.mem_iff.mp hs, hp⟩
    obtain ⟨r₁, e₁, m₁, p₁, max₁⟩ := GetLatestSnapshot_of_match sortSort hsort pfx l₁ hex
    obtain ⟨r₂, e₂, m₂, p₂, max₂⟩ := GetLatestSnapshot_of_match sortSort hsort pfx l₂ hex2
    refine ⟨r₁, r₂, e₁, e₂, ?_⟩
    exact le_antisymm (max₂ r₁ (hperm.mem_iff.mp m₁) p₁) (max₁ r₂ (hperm.mem_iff.mpr m₂) p₂)
  · left
    have hno1 : ∀ s ∈ l₁, ¬ pfx <:+: s.Name := fun s hs hp => hex ⟨s, hs, hp⟩
    have hno2 : ∀ s ∈ l₂, ¬ pfx <:+: s.Name :=
      fun s hs hp => hex ⟨s, hperm.mem_iff.mpr hs, hp⟩
    exact ⟨GetLatestSnapshot_of_no_match sortSort hsort pfx l₁ hno1,
      GetLatestSnapshot_of_no_match sortSort hsort pfx l₂ hno2⟩

/-- An instance of C29: the snapshots of the test and the same in reverse order. -/
theorem GetLatestSnapshot_order_independent_witness :
    SortsBySnapshotName sortByName ∧ testedSnapshots.Perm testedSnapshots.reverse ∧
    ((GetLatestSnapshot sortByName "alpha".toList testedSnapshots =
        (none, some "No snapshot found") ∧
      GetLatestSnapshot sortByName "alpha".toList testedSnapshots.reverse =
        (none, some "No snapshot found")) ∨
    (∃ r₁ r₂, GetLatestSnapshot sortByName "alpha".toList testedSnapshots = (some r₁, none) ∧
      GetLatestSnapshot sortByName "alpha".toList testedSnapshots.reverse = (some r₂, none) ∧
      r₁.Name = r₂.Name)) ∧
    GetLatestSnapshot sortByName "alpha".toList testedSnapshots.reverse =
      (some ⟨"zebra-rtc-alpha-snapshot-201503032021".toList, 1⟩, none) :=
  ⟨sortByName_sorts, (List.reverse_perm testedSnapshots).symm,
    GetLatestSnapshot_order_independent sortByName sortByName_sorts "alpha".toList
      testedSnapshots testedSnapshots.reverse (List.reverse_perm testedSnapshots).symm,
    by decide⟩

end Gogoo
